import Mathlib

/-!
# AVL tree management system (`AVLmanagment.c`)

A shallow embedding of the C program.  The program is a pointer program: nodes carry
`parent`, `twin`, `timeSubtree` and `minQualityP` pointers that alias each other, and
the rotations decide what to relink by comparing pointers.  The embedding therefore keeps
an explicit heap: a pointer is `none` (NULL) or the index of a heap cell, `malloc` appends
a cell, `free` empties it, and every C statement reads and writes the heap in the order in
which the C code does.

* Dereferencing NULL, or a cell that was freed, is undefined behaviour in C; here it is
  the result `Except.error Fault.nullDeref` / `Fault.danglingDeref`.
* `malloc` is assumed to succeed.
* Recursion and `while` loops follow pointers, so they take a fuel argument; running out
  of it is `Fault.outOfFuel`.  The seven public operations supply one more unit of fuel
  than the heap has cells, so fuel runs out only when a walk revisits a cell.
* `int` values are `Int`; the one addition that can leave the `int` range on ordinary
  inputs (`quality + EXTRA`) is wrapped to 32 bits.
-/

namespace AVLManagement

/-! ## Heap and node layout -/

/-- A C pointer `Product*`: `none` is NULL, `some a` is the address of heap cell `a`. -/
abbrev Ptr := Option Nat

/-- The C struct `Product`, field for field. -/
structure Product where
  time : Int
  quality : Int
  parent : Ptr
  left : Ptr
  right : Ptr
  twin : Ptr
  timeSubtree : Ptr
  minQualityP : Ptr
  height : Int
  subtreeSize : Int
  minQuality : Int
deriving DecidableEq, Repr

/-- The ways a run of the C code can fail to produce a value. -/
inductive Fault where
  | nullDeref
  | danglingDeref
  | outOfFuel
deriving DecidableEq, Repr

/-- The heap: cell `a` is `some p` while allocated and `none` once freed. -/
abbrev Heap := List (Option Product)

/-- The content of heap cell `a`, if the heap has such a cell. -/
def cellAt : Heap → Nat → Option (Option Product)
  | [], _ => none
  | c :: _, 0 => some c
  | _ :: cs, a + 1 => cellAt cs a

/-- Overwrite heap cell `a`. -/
def setCell : Heap → Nat → Option Product → Heap
  | [], _, _ => []
  | _ :: cs, 0, v => v :: cs
  | c :: cs, a + 1, v => c :: setCell cs a v

/-- Read through a pointer (`*p`). -/
def load (h : Heap) (p : Ptr) : Except Fault Product :=
  match p with
  | none => .error .nullDeref
  | some a =>
    match cellAt h a with
    | some (some n) => .ok n
    | _ => .error .danglingDeref

/-- Write through a pointer (`*p = n`). -/
def store (h : Heap) (p : Ptr) (n : Product) : Except Fault Heap :=
  match p with
  | none => .error .nullDeref
  | some a =>
    match cellAt h a with
    | some (some _) => .ok (setCell h a (some n))
    | _ => .error .danglingDeref

/-- The C call `free(p)` on a non-NULL pointer. -/
def release (h : Heap) (p : Ptr) : Except Fault Heap :=
  match p with
  | none => .error .nullDeref
  | some a =>
    match cellAt h a with
    | some (some _) => .ok (setCell h a none)
    | _ => .error .danglingDeref

/-- The C call `malloc(sizeof(Product))` followed by filling the cell. -/
def alloc (h : Heap) (n : Product) : Ptr × Heap :=
  (some h.length, h ++ [some n])

/-- The C macro `max(a, b)`. -/
def cMax (a b : Int) : Int := if a > b then a else b

/-- The C macro `min(a, b)`. -/
def cMin (a b : Int) : Int := if a < b then a else b

/-- The constant `EXTRA`. -/
def EXTRA : Int := 10

/-- Two's-complement wrap of a value to the 32-bit `int` range. -/
def wrapInt (x : Int) : Int := (x + 2147483648) % 4294967296 - 2147483648

/-! ## Node construction -/

/-- The function `creatNewProduct`. -/
def creatNewProduct (h : Heap) (newTime newQuality : Int) : Ptr × Heap :=
  let self : Ptr := some h.length
  alloc h
    { time := newTime, quality := newQuality, parent := none, left := none, right := none,
      twin := none, timeSubtree := none, minQualityP := self, height := 0, subtreeSize := 1,
      minQuality := newQuality }

/-- The function `createQualityNode`. -/
def createQualityNode (h : Heap) (newQuality : Int) : Ptr × Heap :=
  alloc h
    { time := -1, quality := newQuality, parent := none, left := none, right := none,
      twin := none, timeSubtree := none, minQualityP := none, height := 0, subtreeSize := 0,
      minQuality := newQuality }

/-- The function `swapProduct`: copies `b`'s time and quality into `a` and swaps the
two `timeSubtree` pointers. -/
def swapProduct (h : Heap) (a b : Ptr) : Except Fault Heap := do
  let bn ← load h b
  let an ← load h a
  let h ← store h a { an with time := bn.time }
  let bn ← load h b
  let an ← load h a
  let h ← store h a { an with quality := bn.quality }
  let an ← load h a
  let temp := an.timeSubtree
  let bn ← load h b
  let h ← store h a { an with timeSubtree := bn.timeSubtree }
  let bn ← load h b
  store h b { bn with timeSubtree := temp }

/-! ## Searching -/

/-- The loop of `searchTime`: `z` is the node being visited, `y` the last one visited. -/
def searchTimeLoop : Nat → Heap → Ptr → Ptr → Int → Except Fault Ptr
  | 0, _, _, _, _ => .error .outOfFuel
  | fuel + 1, h, y, z, time =>
    match z with
    | none => .ok y
    | some _ => do
      let zn ← load h z
      if time = zn.time then pure z
      else if time < zn.time then searchTimeLoop fuel h z zn.left time
      else searchTimeLoop fuel h z zn.right time

/-- The function `searchTime`. -/
def searchTime (fuel : Nat) (h : Heap) (root : Ptr) (time : Int) : Except Fault Ptr :=
  searchTimeLoop fuel h none root time

/-- The loop of `searchQuality`. -/
def searchQualityLoop : Nat → Heap → Ptr → Ptr → Int → Except Fault Ptr
  | 0, _, _, _, _ => .error .outOfFuel
  | fuel + 1, h, y, z, quality =>
    match z with
    | none => .ok y
    | some _ => do
      let zn ← load h z
      if quality = zn.quality then pure z
      else if quality < zn.quality then searchQualityLoop fuel h z zn.left quality
      else searchQualityLoop fuel h z zn.right quality

/-- The function `searchQuality`. -/
def searchQuality (fuel : Nat) (h : Heap) (root : Ptr) (quality : Int) : Except Fault Ptr :=
  searchQualityLoop fuel h none root quality

/-! ## Heights and cached minima -/

/-- The function `height`: recomputed from the children's stored `height` fields. -/
def height (h : Heap) (x : Ptr) : Except Fault Int :=
  match x with
  | none => .ok (-1)
  | some _ => do
    let xn ← load h x
    let leftHeight ← (match xn.left with
      | some l => do let ln ← load h (some l); pure ln.height
      | none => pure (-1 : Int))
    let rightHeight ← (match xn.right with
      | some r => do let rn ← load h (some r); pure rn.height
      | none => pure (-1 : Int))
    pure (cMax leftHeight rightHeight + 1)

/-- The function `updateHeight`. -/
def updateHeight (h : Heap) (x : Ptr) : Except Fault Heap := do
  let v ← height h x
  let xn ← load h x
  store h x { xn with height := v }

/-- The function `minOfTwoProducts`: the smaller of two nodes by quality, then time. -/
def minOfTwoProducts (h : Heap) (x y : Ptr) : Except Fault Ptr :=
  match x, y with
  | none, _ => .ok y
  | _, none => .ok x
  | some _, some _ => do
    let xn ← load h x
    let yn ← load h y
    if xn.quality < yn.quality then pure x
    else if xn.quality > yn.quality then pure y
    else if xn.time < yn.time then pure x else pure y

/-- The function `minQualityPointer`. -/
def minQualityPointer (h : Heap) (x y : Ptr) : Except Fault Ptr :=
  match x, y with
  | none, _ => .ok none
  | _, none => .ok none
  | some _, some _ => do
    let xn ← load h x
    let yn ← load h y
    if xn.minQualityP = none ∧ yn.minQualityP ≠ none then
      minOfTwoProducts h x yn.minQualityP
    else if xn.minQualityP ≠ none ∧ yn.minQualityP = none then
      minOfTwoProducts h xn.minQualityP y
    else if yn.minQualityP = none ∧ xn.minQualityP = none then
      minOfTwoProducts h x y
    else minOfTwoProducts h xn.minQualityP yn.minQualityP

/-- The assignment pair `x->minQualityP = minQualityPointer(x, temp);
x->minQuality = x->minQualityP->quality;` of `updateMinQuality`. -/
def assignMinQuality (h : Heap) (x temp : Ptr) : Except Fault Heap := do
  let m ← minQualityPointer h x temp
  let xn ← load h x
  let h ← store h x { xn with minQualityP := m }
  let xn ← load h x
  let mn ← load h xn.minQualityP
  store h x { xn with minQuality := mn.quality }

/-- The function `updateMinQuality`. -/
def updateMinQuality (h : Heap) (x : Ptr) : Except Fault Heap :=
  match x with
  | none => .ok h
  | some _ => do
    let mut h := h
    let xn ← load h x
    if xn.left = none ∧ xn.right = none then
      h ← store h x { xn with minQualityP := x }
      let xn ← load h x
      h ← store h x { xn with minQuality := xn.quality }
    let xn ← load h x
    if xn.right ≠ none ∧ xn.left ≠ none then
      let temp ← minQualityPointer h xn.right xn.left
      assignMinQuality h x temp
    else if xn.left ≠ none ∨ xn.right ≠ none then
      let temp := if xn.right ≠ none then xn.right else xn.left
      assignMinQuality h x temp
    else pure h

/-! ## Rotations and rebalancing -/

/-- The block of a rotation that relinks `x`'s parent to `y` when `x` is its child. -/
def relinkParent (h : Heap) (x y : Ptr) : Except Fault Heap := do
  let mut h := h
  let xn ← load h x
  if xn.parent ≠ none then
    let pn ← load h xn.parent
    if pn.left = x then
      h ← store h xn.parent { pn with left := y }
    let pn ← load h xn.parent
    if pn.right = x then
      h ← store h xn.parent { pn with right := y }
  pure h

/-- The function `rightRotate`. -/
def rightRotate (h : Heap) (x : Ptr) : Except Fault (Ptr × Heap) := do
  let xn ← load h x
  let y := xn.left
  let yn ← load h y
  let xn ← load h x
  let h ← store h x { xn with left := yn.right }
  let yn ← load h y
  let h ← store h y { yn with right := x }
  let h ← relinkParent h x y
  let xn ← load h x
  let yn ← load h y
  let h ← store h y { yn with parent := xn.parent }
  let xn ← load h x
  let h ← store h x { xn with parent := y }
  let h ← updateHeight h x
  let h ← updateHeight h y
  let xn ← load h x
  let yn ← load h y
  let h ← (match xn.left with
    | some l => do
      let ln ← load h (some l)
      store h x { xn with subtreeSize := xn.subtreeSize - yn.subtreeSize + ln.subtreeSize }
    | none => store h x { xn with subtreeSize := xn.subtreeSize - yn.subtreeSize })
  let xn ← load h x
  let yn ← load h y
  let h ← (match xn.right with
    | some r => do
      let rn ← load h (some r)
      store h y { yn with subtreeSize := yn.subtreeSize + rn.subtreeSize + 1 }
    | none => store h y { yn with subtreeSize := yn.subtreeSize + 1 })
  let h ← updateMinQuality h y
  let h ← updateMinQuality h x
  pure (y, h)

/-- The function `leftRotate`. -/
def leftRotate (h : Heap) (x : Ptr) : Except Fault (Ptr × Heap) := do
  let xn ← load h x
  let y := xn.right
  let yn ← load h y
  let xn ← load h x
  let h ← store h x { xn with right := yn.left }
  let yn ← load h y
  let h ← store h y { yn with left := x }
  let h ← relinkParent h x y
  let xn ← load h x
  let yn ← load h y
  let h ← store h y { yn with parent := xn.parent }
  let xn ← load h x
  let h ← store h x { xn with parent := y }
  let h ← updateHeight h x
  let h ← updateHeight h y
  let xn ← load h x
  let yn ← load h y
  let h ← (match xn.right with
    | some r => do
      let rn ← load h (some r)
      store h x { xn with subtreeSize := xn.subtreeSize - yn.subtreeSize + rn.subtreeSize }
    | none => store h x { xn with subtreeSize := xn.subtreeSize - yn.subtreeSize })
  let xn ← load h x
  let yn ← load h y
  let h ← (match xn.left with
    | some l => do
      let ln ← load h (some l)
      store h y { yn with subtreeSize := yn.subtreeSize + ln.subtreeSize + 1 }
    | none => store h y { yn with subtreeSize := yn.subtreeSize + 1 })
  let h ← updateMinQuality h x
  let h ← updateMinQuality h y
  pure (y, h)

/-- The function `balance`.  The inner rotation of a double rotation discards its
result, exactly as the C code does: the link from `x` to the rotated child is repaired
only by `relinkParent`, that is, only when the child's `parent` field points at `x`. -/
def balance (h : Heap) (x : Ptr) : Except Fault (Ptr × Heap) := do
  let xn ← load h x
  let hl ← height h xn.left
  let hr ← height h xn.right
  if Int.natAbs (hl - hr) ≤ 1 then pure (x, h)
  else if hl > hr then
    let y := xn.left
    let yn ← load h y
    let yl ← height h yn.left
    let yr ← height h yn.right
    let mut h := h
    if yl < yr then
      let r ← leftRotate h y
      h := r.2
    rightRotate h x
  else
    let y := xn.right
    let yn ← load h y
    let yl ← height h yn.left
    let yr ← height h yn.right
    let mut h := h
    if yl > yr then
      let r ← rightRotate h y
      h := r.2
    leftRotate h x

/-! ## Insertion -/

/-- The function `insertTime`. -/
def insertTime : Nat → Heap → Ptr → Ptr → Except Fault (Ptr × Heap)
  | 0, _, _, _ => .error .outOfFuel
  | fuel + 1, h, root, x =>
    match root with
    | none => do
      let xn ← load h x
      let h ← store h x { xn with height := 0 }
      pure (x, h)
    | some _ => do
      let xn ← load h x
      let rn ← load h root
      let mut h := h
      if xn.time < rn.time then
        let r ← insertTime fuel h rn.left x
        let y := r.1
        h := r.2
        let rn ← load h root
        h ← store h root { rn with left := y }
        let yn ← load h y
        h ← store h y { yn with parent := root }
        let yn ← load h y
        let rn ← load h root
        h ← store h root { rn with height := yn.height + 1 }
      else
        let r ← insertTime fuel h rn.right x
        let y := r.1
        h := r.2
        let rn ← load h root
        h ← store h root { rn with right := y }
        let yn ← load h y
        h ← store h y { yn with parent := root }
        let yn ← load h y
        let rn ← load h root
        h ← store h root { rn with height := yn.height + 1 }
      let rn ← load h root
      h ← store h root { rn with subtreeSize := rn.subtreeSize + 1 }
      h ← updateMinQuality h root
      balance h root

/-- The function `insertQuality`. -/
def insertQuality : Nat → Heap → Ptr → Ptr → Except Fault (Ptr × Heap)
  | 0, _, _, _ => .error .outOfFuel
  | fuel + 1, h, root, x =>
    match root with
    | none => do
      let xn ← load h x
      let (newQuality, h) := createQualityNode h xn.quality
      let qn ← load h newQuality
      let r ← insertTime fuel h qn.timeSubtree x
      let newTimeRoot := r.1
      let h := r.2
      let qn ← load h newQuality
      let h ← store h newQuality { qn with timeSubtree := newTimeRoot }
      let qn ← load h newQuality
      let tn ← load h newTimeRoot
      let h ← store h newQuality { qn with subtreeSize := qn.subtreeSize + tn.subtreeSize }
      pure (newQuality, h)
    | some _ => do
      let mut h := h
      let xn ← load h x
      let rn ← load h root
      if xn.quality < rn.quality then
        let r ← insertQuality fuel h rn.left x
        let y := r.1
        h := r.2
        let rn ← load h root
        h ← store h root { rn with left := y }
        let yn ← load h y
        h ← store h y { yn with parent := root }
        let yn ← load h y
        let rn ← load h root
        h ← store h root { rn with height := yn.height + 1 }
      let xn ← load h x
      let rn ← load h root
      if xn.quality > rn.quality then
        let r ← insertQuality fuel h rn.right x
        let y := r.1
        h := r.2
        let rn ← load h root
        h ← store h root { rn with right := y }
        let yn ← load h y
        h ← store h y { yn with parent := root }
        let yn ← load h y
        let rn ← load h root
        h ← store h root { rn with height := yn.height + 1 }
      let xn ← load h x
      let rn ← load h root
      if xn.quality = rn.quality then
        let r ← insertTime fuel h rn.timeSubtree x
        let newTimeRoot := r.1
        h := r.2
        let rn ← load h root
        h ← store h root { rn with timeSubtree := newTimeRoot }
        let rn ← load h root
        h ← store h root { rn with subtreeSize := rn.subtreeSize + 1 }
        pure (root, h)
      else
        let rn ← load h root
        h ← store h root { rn with subtreeSize := rn.subtreeSize + 1 }
        balance h root

/-! ## Extremes -/

/-- The loop of `minProduct`. -/
def minProductLoop : Nat → Heap → Ptr → Except Fault Ptr
  | 0, _, _ => .error .outOfFuel
  | fuel + 1, h, current => do
    let cn ← load h current
    if cn.left ≠ none then minProductLoop fuel h cn.left else pure current

/-- The function `minProduct`. -/
def minProduct (fuel : Nat) (h : Heap) (root : Ptr) : Except Fault Ptr :=
  match root with
  | none => .ok none
  | some _ => minProductLoop fuel h root

/-- The loop of `maxProduct`. -/
def maxProductLoop : Nat → Heap → Ptr → Except Fault Ptr
  | 0, _, _ => .error .outOfFuel
  | fuel + 1, h, current => do
    let cn ← load h current
    if cn.right ≠ none then maxProductLoop fuel h cn.right else pure current

/-- The function `maxProduct`. -/
def maxProduct (fuel : Nat) (h : Heap) (root : Ptr) : Except Fault Ptr :=
  match root with
  | none => .ok none
  | some _ => maxProductLoop fuel h root

/-! ## Removal -/

/-- The function `removeProductFromTime`. -/
def removeProductFromTime : Nat → Heap → Ptr → Int → Except Fault (Ptr × Heap)
  | 0, _, _, _ => .error .outOfFuel
  | fuel + 1, h, root, time =>
    match root with
    | none => .ok (none, h)
    | some _ => do
      let rn ← load h root
      let mut h := h
      if rn.time > time then
        let r ← removeProductFromTime fuel h rn.left time
        h := r.2
        let rn ← load h root
        h ← store h root { rn with left := r.1 }
      else if rn.time < time then
        let r ← removeProductFromTime fuel h rn.right time
        h := r.2
        let rn ← load h root
        h ← store h root { rn with right := r.1 }
      else
        if rn.left = none ∨ rn.right = none then
          let temp := if rn.left = none then rn.right else rn.left
          if rn.parent ≠ none then
            let pn ← load h rn.parent
            let mn ← load h pn.minQualityP
            if mn.time = rn.time then
              h ← store h rn.parent { pn with minQualityP := none }
          if temp ≠ none then
            let rn ← load h root
            let tn ← load h temp
            h ← store h temp { tn with parent := rn.parent }
          h ← release h root
          return (temp, h)
        let temp ← minProduct fuel h rn.right
        h ← swapProduct h root temp
        let rn ← load h root
        let tn ← load h temp
        let r ← removeProductFromTime fuel h rn.right tn.time
        h := r.2
        let rn ← load h root
        h ← store h root { rn with right := r.1 }
      h ← updateHeight h root
      h ← updateMinQuality h root
      let rn ← load h root
      h ← store h root { rn with subtreeSize := rn.subtreeSize - 1 }
      balance h root

/-- The function `removeProductFromQuality`.  After the two-children case the C code
falls through to `root->timeSubtree = newTimeRoot` with `newTimeRoot == NULL`; the
embedding does the same. -/
def removeProductFromQuality : Nat → Heap → Ptr → Int → Int → Except Fault (Ptr × Heap)
  | 0, _, _, _, _ => .error .outOfFuel
  | fuel + 1, h, root, time, quality =>
    match root with
    | none => .ok (none, h)
    | some _ => do
      let rn ← load h root
      let mut h := h
      if rn.quality > quality then
        let r ← removeProductFromQuality fuel h rn.left time quality
        h := r.2
        let rn ← load h root
        h ← store h root { rn with left := r.1 }
      else if rn.quality < quality then
        let r ← removeProductFromQuality fuel h rn.right time quality
        h := r.2
        let rn ← load h root
        h ← store h root { rn with right := r.1 }
      else
        let mut newTimeRoot : Ptr := none
        if rn.timeSubtree ≠ none then
          let r ← removeProductFromTime fuel h rn.timeSubtree time
          newTimeRoot := r.1
          h := r.2
        if newTimeRoot = none then
          let rn ← load h root
          if rn.quality = quality then
            h ← store h root { rn with timeSubtree := none }
          let rn ← load h root
          if rn.left = none ∨ rn.right = none then
            let temp := if rn.left = none then rn.right else rn.left
            if temp ≠ none then
              let tn ← load h temp
              h ← store h temp { tn with parent := rn.parent }
            h ← release h root
            return (temp, h)
          let temp ← minProduct fuel h rn.right
          h ← swapProduct h root temp
          let rn ← load h root
          let tn ← load h temp
          let r ← removeProductFromQuality fuel h rn.right (-1) tn.quality
          h := r.2
          let rn ← load h root
          h ← store h root { rn with right := r.1 }
        let rn ← load h root
        h ← store h root { rn with timeSubtree := newTimeRoot }
      h ← updateHeight h root
      let rn ← load h root
      h ← store h root { rn with subtreeSize := rn.subtreeSize - 1 }
      balance h root

/-! ## Order statistics -/

/-- The function `timeSubtreeSize`. -/
def timeSubtreeSize (h : Heap) (qualityRoot : Ptr) : Except Fault Int :=
  match qualityRoot with
  | none => .ok 0
  | some _ => do
    let qn ← load h qualityRoot
    match qn.timeSubtree with
    | none => pure 0
    | some t => do
      let tn ← load h (some t)
      pure tn.subtreeSize

/-- The expression `root->left ? root->left->subtreeSize : 0`. -/
def leftSizeOf (h : Heap) (rn : Product) : Except Fault Int :=
  match rn.left with
  | none => .ok 0
  | some l => do
    let ln ← load h (some l)
    pure ln.subtreeSize

/-- The function `findIthTime`. -/
def findIthTime : Nat → Heap → Ptr → Int → Except Fault Ptr
  | 0, _, _, _ => .error .outOfFuel
  | fuel + 1, h, root, i =>
    match root with
    | none => .ok none
    | some _ => do
      let rn ← load h root
      let leftSize ← leftSizeOf h rn
      if i < 1 ∨ i > rn.subtreeSize then pure none
      else if i = leftSize + 1 then pure root
      else if i ≤ leftSize then findIthTime fuel h rn.left i
      else findIthTime fuel h rn.right (i - leftSize - 1)

/-- The function `findIthQuality`.  The C conditions `i > leftSize && i <= leftSize +
timeSubtreeSize(root)`, `i <= leftSize` and the final `else` are the three branches
below; `timeSubtreeSize(root)` is evaluated only when `i > leftSize`, as in C. -/
def findIthQuality : Nat → Heap → Ptr → Int → Except Fault Ptr
  | 0, _, _, _ => .error .outOfFuel
  | fuel + 1, h, root, i =>
    match root with
    | none => .ok none
    | some _ => do
      let rn ← load h root
      let leftSize ← leftSizeOf h rn
      if i < 1 ∨ i > rn.subtreeSize then pure none
      else if i > leftSize then
        let ts ← timeSubtreeSize h root
        if i ≤ leftSize + ts then findIthTime fuel h rn.timeSubtree (i - leftSize)
        else findIthQuality fuel h rn.right (i - leftSize - ts)
      else findIthQuality fuel h rn.left i

/-! ## Range queries on the time tree -/

/-- The function `isInRange`. -/
def isInRange (h : Heap) (x : Ptr) (time1 time2 : Int) : Except Fault Bool :=
  match x with
  | none => .ok false
  | some _ => do
    let xn ← load h x
    pure (decide (xn.time ≥ time1 ∧ xn.time ≤ time2))

/-- The loop of `findTimeOrSuccessor`. -/
def findTimeOrSuccessorLoop : Nat → Heap → Ptr → Ptr → Int → Except Fault Ptr
  | 0, _, _, _, _ => .error .outOfFuel
  | fuel + 1, h, successor, root, time =>
    match root with
    | none => .ok successor
    | some _ => do
      let rn ← load h root
      if rn.time > time then findTimeOrSuccessorLoop fuel h root rn.left time
      else if rn.time < time then findTimeOrSuccessorLoop fuel h successor rn.right time
      else pure root

/-- The function `findTimeOrSuccessor`. -/
def findTimeOrSuccessor (fuel : Nat) (h : Heap) (root : Ptr) (time : Int) : Except Fault Ptr :=
  findTimeOrSuccessorLoop fuel h none root time

/-- The loop of `findTimeOrPredecessor`. -/
def findTimeOrPredecessorLoop : Nat → Heap → Ptr → Ptr → Int → Except Fault Ptr
  | 0, _, _, _, _ => .error .outOfFuel
  | fuel + 1, h, predecessor, root, time =>
    match root with
    | none => .ok predecessor
    | some _ => do
      let rn ← load h root
      if rn.time < time then findTimeOrPredecessorLoop fuel h root rn.right time
      else if rn.time > time then findTimeOrPredecessorLoop fuel h predecessor rn.left time
      else pure root

/-- The function `findTimeOrPredecessor`. -/
def findTimeOrPredecessor (fuel : Nat) (h : Heap) (root : Ptr) (time : Int) :
    Except Fault Ptr :=
  findTimeOrPredecessorLoop fuel h none root time

/-- The function `minProductLeft`.  The parameter `min` is overwritten before it is read
on every path through the C function. -/
def minProductLeft : Nat → Heap → Ptr → Ptr → Int → Int → Except Fault Ptr
  | 0, _, _, _, _, _ => .error .outOfFuel
  | fuel + 1, h, root, _, time1, time2 =>
    match root with
    | none => .ok none
    | some _ => do
      let rn ← load h root
      if rn.time > time1 then
        let mut min ← minProductLeft fuel h rn.left none time1 time2
        if rn.right ≠ none ∧ (← isInRange h rn.right time1 time2) then
          let cn ← load h rn.right
          min ← minOfTwoProducts h cn.minQualityP min
        if (← isInRange h root time1 time2) then
          min ← minOfTwoProducts h root min
        pure min
      else if rn.time < time1 then
        minProductLeft fuel h rn.right none time1 time2
      else
        let min := root
        if rn.right ≠ none ∧ (← isInRange h rn.right time1 time2) then
          let cn ← load h rn.right
          minOfTwoProducts h min cn.minQualityP
        else pure min

/-- The function `minProductRight`. -/
def minProductRight : Nat → Heap → Ptr → Ptr → Int → Int → Except Fault Ptr
  | 0, _, _, _, _, _ => .error .outOfFuel
  | fuel + 1, h, root, _, time1, time2 =>
    match root with
    | none => .ok none
    | some _ => do
      let rn ← load h root
      if rn.time > time2 then
        minProductRight fuel h rn.left none time1 time2
      else if rn.time < time2 then
        let mut min ← minProductRight fuel h rn.right none time1 time2
        if rn.left ≠ none ∧ (← isInRange h rn.left time1 time2) then
          let cn ← load h rn.left
          min ← minOfTwoProducts h cn.minQualityP min
        if (← isInRange h root time1 time2) then
          min ← minOfTwoProducts h root min
        pure min
      else
        let min := root
        if rn.left ≠ none ∧ (← isInRange h rn.left time1 time2) then
          let cn ← load h rn.left
          minOfTwoProducts h min cn.minQualityP
        else pure min

/-- The function `findMinQualityBetween`.  The C code passes its still uninitialised
locals `minLeft`, `minRight` as the `min` argument; the callee never reads them. -/
def findMinQualityBetween (fuel : Nat) (h : Heap) (root : Ptr) (left right : Int) :
    Except Fault Ptr :=
  match root with
  | none => .ok none
  | some _ => do
    let minLeft ← minProductLeft fuel h root none left right
    let minRight ← minProductRight fuel h root none left right
    if minLeft = minRight then pure minLeft
    else minOfTwoProducts h minLeft minRight

/-- The function `countProducts`. -/
def countProducts : Nat → Heap → Ptr → Int → Int → Except Fault Int
  | 0, _, _, _, _ => .error .outOfFuel
  | fuel + 1, h, root, time1, time2 =>
    match root with
    | none => .ok 0
    | some _ => do
      let rn ← load h root
      if rn.time < time1 then countProducts fuel h rn.right time1 time2
      else if rn.time > time2 then countProducts fuel h rn.left time1 time2
      else
        let a ← countProducts fuel h rn.left time1 time2
        let b ← countProducts fuel h rn.right time1 time2
        pure (1 + a + b)

/-- The function `updateToNewQuality`.  It has no NULL check: reaching a missing child
dereferences NULL. -/
def updateToNewQuality : Nat → Heap → Ptr → Int → Int → Except Fault (Ptr × Heap)
  | 0, _, _, _, _ => .error .outOfFuel
  | fuel + 1, h, root, time, newQuality => do
    let mut h := h
    let rn ← load h root
    if rn.time > time then
      let r ← updateToNewQuality fuel h rn.left time newQuality
      h := r.2
      let rn ← load h root
      h ← store h root { rn with left := r.1 }
    let rn ← load h root
    if rn.time < time then
      let r ← updateToNewQuality fuel h rn.right time newQuality
      h := r.2
      let rn ← load h root
      h ← store h root { rn with right := r.1 }
    else if rn.time = time then
      h ← store h root { rn with quality := newQuality }
    pure (root, h)

/-! ## The data structure and its seven operations -/

/-- The C struct `DataStructure`. -/
structure DataStructure where
  timeRoot : Ptr
  qualityRoot : Ptr
  special : Int
  specialExists : Int
deriving DecidableEq, Repr

/-- The program state seen by a caller: the heap and the caller's `DataStructure`. -/
structure Catalog where
  heap : Heap
  ds : DataStructure
deriving DecidableEq, Repr

/-- Fuel handed to a walk over heap `h`: one more than the number of cells. -/
def fuelFor (h : Heap) : Nat := h.length + 1

/-- The function `Init`. -/
def Init (s : Int) : Catalog :=
  { heap := [], ds := { timeRoot := none, qualityRoot := none, special := s, specialExists := 0 } }

/-- The function `AddProduct`. -/
def AddProduct (c : Catalog) (time quality : Int) : Except Fault Catalog := do
  let ds := c.ds
  let (timeProduct, h) := creatNewProduct c.heap time quality
  let r ← insertTime (fuelFor h) h ds.timeRoot timeProduct
  let h := r.2
  let ds := { ds with timeRoot := r.1 }
  let (qualityProduct, h) := creatNewProduct h time quality
  let r ← insertQuality (fuelFor h) h ds.qualityRoot qualityProduct
  let h := r.2
  let ds := { ds with qualityRoot := r.1 }
  let tn ← load h timeProduct
  let h ← store h timeProduct { tn with twin := qualityProduct }
  let qn ← load h qualityProduct
  let h ← store h qualityProduct { qn with twin := timeProduct }
  let ds := if quality = ds.special then { ds with specialExists := 1 } else ds
  pure { heap := h, ds := ds }

/-- The function `RemoveProduct`. -/
def RemoveProduct (c : Catalog) (time : Int) : Except Fault Catalog := do
  let ds := c.ds
  let h := c.heap
  let productToDelete ← searchTime (fuelFor h) h ds.timeRoot time
  match productToDelete with
  | none => pure c
  | some _ =>
    let pn ← load h productToDelete
    if pn.time ≠ time then pure c
    else
      let quality := pn.quality
      let r ← removeProductFromTime (fuelFor h) h ds.timeRoot time
      let h := r.2
      let ds := { ds with timeRoot := r.1 }
      let r ← removeProductFromQuality (fuelFor h) h ds.qualityRoot time quality
      let h := r.2
      let ds := { ds with qualityRoot := r.1 }
      if quality = ds.special then
        let qualitySearch ← searchQuality (fuelFor h) h ds.qualityRoot quality
        match qualitySearch with
        | none => pure { heap := h, ds := { ds with specialExists := 0 } }
        | some _ =>
          let sn ← load h qualitySearch
          if sn.quality ≠ quality then pure { heap := h, ds := { ds with specialExists := 0 } }
          else pure { heap := h, ds := ds }
      else pure { heap := h, ds := ds }

/-- The `while (qualityExists)` loop of `RemoveQuality`, entered with `qualityNode`
pointing at the bucket found by the search before the loop. -/
def removeQualityLoop : Nat → Catalog → Ptr → Int → Except Fault Catalog
  | 0, _, _, _ => .error .outOfFuel
  | fuel + 1, c, qualityNode, quality => do
    let ds := c.ds
    let h := c.heap
    let qn ← load h qualityNode
    let sn ← load h qn.timeSubtree
    let currentTime := sn.time
    let r ← removeProductFromTime (fuelFor h) h ds.timeRoot currentTime
    let h := r.2
    let ds := { ds with timeRoot := r.1 }
    let r ← removeProductFromQuality (fuelFor h) h ds.qualityRoot currentTime quality
    let h := r.2
    let ds := { ds with qualityRoot := r.1 }
    let qualityNode ← searchQuality (fuelFor h) h ds.qualityRoot quality
    match qualityNode with
    | none => pure { heap := h, ds := ds }
    | some _ =>
      let qn ← load h qualityNode
      if qn.quality ≠ quality then pure { heap := h, ds := ds }
      else removeQualityLoop fuel { heap := h, ds := ds } qualityNode quality

/-- The function `RemoveQuality`. -/
def RemoveQuality (c : Catalog) (quality : Int) : Except Fault Catalog := do
  let ds := if c.ds.special = quality then { c.ds with specialExists := 0 } else c.ds
  let h := c.heap
  let qualityNode ← searchQuality (fuelFor h) h ds.qualityRoot quality
  match qualityNode with
  | none => pure { heap := h, ds := ds }
  | some _ =>
    let qn ← load h qualityNode
    if qn.quality ≠ quality then pure { heap := h, ds := ds }
    else removeQualityLoop (fuelFor h) { heap := h, ds := ds } qualityNode quality

/-- The function `GetIthRankProduct`. -/
def GetIthRankProduct (c : Catalog) (i : Int) : Except Fault Int :=
  match c.ds.qualityRoot with
  | none => .ok (-1)
  | some _ => do
    let ithProduct ← findIthQuality (fuelFor c.heap) c.heap c.ds.qualityRoot i
    match ithProduct with
    | none => pure (-1)
    | some _ =>
      let pn ← load c.heap ithProduct
      pure pn.time

/-- The first `for` loop of `GetIthRankProductBetween`, with `k` iterations left to run
(`j = i - k`).  Returns the heap, the time root and the arrays `minTime`, `minQuality`. -/
def extractLoop : Nat → Heap → Ptr → Ptr → Int → Int → List Int → List Int →
    Except Fault (Heap × Ptr × List Int × List Int)
  | 0, h, timeRoot, _, _, _, minTime, minQuality => .ok (h, timeRoot, minTime, minQuality)
  | k + 1, h, timeRoot, qualityRoot, left, right, minTime, minQuality => do
    let minProduct ← findMinQualityBetween (fuelFor h) h timeRoot left right
    let mx ← maxProduct (fuelFor h) h qualityRoot
    let mxn ← load h mx
    let maxQuality := wrapInt (mxn.quality + EXTRA)
    let mn ← load h minProduct
    let minTime := minTime ++ [mn.time]
    let mn ← load h minProduct
    let minQuality := minQuality ++ [mn.quality]
    let mn ← load h minProduct
    let r ← updateToNewQuality (fuelFor h) h timeRoot mn.time maxQuality
    let timeRoot := r.1
    let h := r.2
    if k ≠ 0 then
      let s ← findTimeOrSuccessor (fuelFor h) h timeRoot left
      let sn ← load h s
      let left := sn.time
      let p ← findTimeOrPredecessor (fuelFor h) h timeRoot right
      let pn ← load h p
      let right := pn.time
      extractLoop k h timeRoot qualityRoot left right minTime minQuality
    else
      extractLoop k h timeRoot qualityRoot left right minTime minQuality

/-- The second `for` loop of `GetIthRankProductBetween`: write the recorded qualities
back, in the order in which they were recorded. -/
def restoreLoop : Heap → Ptr → List Int → List Int → Except Fault (Heap × Ptr)
  | h, timeRoot, t :: ts, q :: qs => do
    let r ← updateToNewQuality (fuelFor h) h timeRoot t q
    restoreLoop r.2 r.1 ts qs
  | h, timeRoot, _, _ => .ok (h, timeRoot)

/-- The function `GetIthRankProductBetween`.  The C function receives the
`DataStructure` by value, so only the heap can change; the result is the returned `int`
together with the heap after the call. -/
def GetIthRankProductBetween (c : Catalog) (time1 time2 i : Int) :
    Except Fault (Int × Heap) := do
  let ds := c.ds
  let h := c.heap
  let left := cMin time1 time2
  let right := cMax time1 time2
  let s ← findTimeOrSuccessor (fuelFor h) h ds.timeRoot left
  let sn ← load h s
  let left := sn.time
  let p ← findTimeOrPredecessor (fuelFor h) h ds.timeRoot right
  let pn ← load h p
  let right := pn.time
  let counter ← countProducts (fuelFor h) h ds.timeRoot left right
  match ds.timeRoot with
  | none => pure (-1, h)
  | some _ =>
    let rn ← load h ds.timeRoot
    if i < 1 ∨ i > rn.subtreeSize ∨ i > counter then pure (-1, h)
    else
      let r ← extractLoop i.toNat h ds.timeRoot ds.qualityRoot left right [] []
      let h := r.1
      let timeRoot := r.2.1
      let minTime := r.2.2.1
      let minQuality := r.2.2.2
      let ithTime := minTime.getLast?.getD 0
      let r ← restoreLoop h timeRoot minTime minQuality
      pure (ithTime, r.1)

/-- The function `Exists`. -/
def Exists (c : Catalog) : Int := c.ds.specialExists

/-! ## Call sequences -/

/-- One mutating call made by a client. -/
inductive Op where
  | add (time quality : Int)
  | remove (time : Int)
  | removeQuality (quality : Int)
deriving DecidableEq, Repr

/-- Perform one call. -/
def step (c : Catalog) : Op → Except Fault Catalog
  | .add t q => AddProduct c t q
  | .remove t => RemoveProduct c t
  | .removeQuality q => RemoveQuality c q

/-- Perform a sequence of calls, left to right. -/
def runFrom : Catalog → List Op → Except Fault Catalog
  | c, [] => .ok c
  | c, op :: ops => do
    let c ← step c op
    runFrom c ops

/-- The catalog reached from `Init s` by a sequence of calls. -/
def run (s : Int) (ops : List Op) : Except Fault Catalog := runFrom (Init s) ops

/-! ## Observations and reference notions used to state the properties -/

deriving instance DecidableEq for Except

/-- In-order walk of the tree linked by `left`/`right` below `root`, listing the
`(time, quality)` pair stored in each node. -/
def inorder : Nat → Heap → Ptr → Except Fault (List (Int × Int))
  | 0, _, _ => .error .outOfFuel
  | fuel + 1, h, root =>
    match root with
    | none => .ok []
    | some _ => do
      let rn ← load h root
      let l ← inorder fuel h rn.left
      let r ← inorder fuel h rn.right
      pure (l ++ [(rn.time, rn.quality)] ++ r)

/-- The entries held by the time tree of a catalog, in the order of an in-order walk. -/
def timeEntries (c : Catalog) : Except Fault (List (Int × Int)) :=
  inorder (fuelFor c.heap) c.heap c.ds.timeRoot

/-- A call of `GetIthRankProductBetween` followed by a look at the time tree it leaves
behind: the returned `int` and the entries of the time tree after the call. -/
def rangeRankThenEntries (c : Catalog) (time1 time2 i : Int) :
    Except Fault (Int × List (Int × Int)) := do
  let r ← GetIthRankProductBetween c time1 time2 i
  let es ← timeEntries { c with heap := r.2 }
  pure (r.1, es)

/-- Reference order on entries `(time, quality)`: quality ascending, ties by time
ascending. -/
def rankBefore (a b : Int × Int) : Bool :=
  decide (a.2 < b.2 ∨ (a.2 = b.2 ∧ a.1 < b.1))

/-- Insert an entry into a list sorted by `rankBefore`. -/
def insertByRank (e : Int × Int) : List (Int × Int) → List (Int × Int)
  | [] => [e]
  | x :: xs => if rankBefore e x then e :: x :: xs else x :: insertByRank e xs

/-- The entries sorted by quality, ties by time. -/
def sortByRank (es : List (Int × Int)) : List (Int × Int) :=
  es.foldr insertByRank []

/-- Reference answer of `rank(i)`: the time of the entry at 1-based position `i` of the
entries sorted by quality, ties by time; `none` when `i` is out of range. -/
def rankedTime (es : List (Int × Int)) (i : Nat) : Option Int :=
  match i with
  | 0 => none
  | k + 1 => ((sortByRank es).get? k).map Prod.fst

/-- The entries whose time lies in the closed interval spanned by `t1` and `t2`. -/
def inInterval (t1 t2 : Int) (es : List (Int × Int)) : List (Int × Int) :=
  es.filter (fun e => decide (cMin t1 t2 ≤ e.1 ∧ e.1 ≤ cMax t1 t2))

/-- In-order walk of the quality tree below `root`: for each bucket its key, its stored
`subtreeSize` and the entries of its nested time subtree. -/
def bucketView : Nat → Heap → Ptr → Except Fault (List (Int × Int × List (Int × Int)))
  | 0, _, _ => .error .outOfFuel
  | fuel + 1, h, root =>
    match root with
    | none => .ok []
    | some _ => do
      let rn ← load h root
      let l ← bucketView fuel h rn.left
      let r ← bucketView fuel h rn.right
      let es ← inorder fuel h rn.timeSubtree
      pure (l ++ [(rn.quality, rn.subtreeSize, es)] ++ r)

/-- The buckets of a catalog's quality tree, in key order as the tree stores them. -/
def qualityBuckets (c : Catalog) : Except Fault (List (Int × Int × List (Int × Int))) :=
  bucketView (fuelFor c.heap) c.heap c.ds.qualityRoot

/-- In-order walk listing each node's time with its stored `subtreeSize`. -/
def sizeView : Nat → Heap → Ptr → Except Fault (List (Int × Int))
  | 0, _, _ => .error .outOfFuel
  | fuel + 1, h, root =>
    match root with
    | none => .ok []
    | some _ => do
      let rn ← load h root
      let l ← sizeView fuel h rn.left
      let r ← sizeView fuel h rn.right
      pure (l ++ [(rn.time, rn.subtreeSize)] ++ r)

/-- Number of nodes below `root`, and whether every node below `root` stores in
`subtreeSize` the number of nodes of its own subtree. -/
def sizeAudit : Nat → Heap → Ptr → Except Fault (Int × Bool)
  | 0, _, _ => .error .outOfFuel
  | fuel + 1, h, root =>
    match root with
    | none => .ok (0, true)
    | some _ => do
      let rn ← load h root
      let l ← sizeAudit fuel h rn.left
      let r ← sizeAudit fuel h rn.right
      let n := 1 + l.1 + r.1
      pure (n, l.2 && r.2 && decide (rn.subtreeSize = n))

/-- Actual height of the tree below `root` (empty tree -1, leaf 0), and whether at every
node below `root` the actual heights of the two subtrees differ by at most 1. -/
def heightAudit : Nat → Heap → Ptr → Except Fault (Int × Bool)
  | 0, _, _ => .error .outOfFuel
  | fuel + 1, h, root =>
    match root with
    | none => .ok (-1, true)
    | some _ => do
      let rn ← load h root
      let l ← heightAudit fuel h rn.left
      let r ← heightAudit fuel h rn.right
      pure (cMax l.1 r.1 + 1, l.2 && r.2 && decide (Int.natAbs (l.1 - r.1) ≤ 1))

/-- In-order walk listing each node's time with its actual height and the actual heights
of its left and right subtrees. -/
def heightView : Nat → Heap → Ptr → Except Fault (Int × List (Int × Int × Int × Int))
  | 0, _, _ => .error .outOfFuel
  | fuel + 1, h, root =>
    match root with
    | none => .ok (-1, [])
    | some _ => do
      let rn ← load h root
      let l ← heightView fuel h rn.left
      let r ← heightView fuel h rn.right
      let ht := cMax l.1 r.1 + 1
      pure (ht, l.2 ++ [(rn.time, ht, l.1, r.1)] ++ r.2)

/-- The smaller of an optional entry and an entry in the reference order. -/
def minEntry (a : Option (Int × Int)) (b : Int × Int) : Int × Int :=
  match a with
  | none => b
  | some x => if rankBefore x b then x else b

/-- The first entry of a list in the reference order, if the list is not empty. -/
def firstByRank (es : List (Int × Int)) : Option (Int × Int) :=
  es.foldl (fun a b => some (minEntry a b)) none

/-- Addresses and entries of the nodes below `root`, and whether at every node below
`root` the pointer `minQualityP` designates a node of that node's own subtree holding the
first entry of the subtree in the reference order, with `minQuality` equal to that
node's quality. -/
def minAudit : Nat → Heap → Ptr → Except Fault (List Nat × List (Int × Int) × Bool)
  | 0, _, _ => .error .outOfFuel
  | fuel + 1, h, root =>
    match root with
    | none => .ok ([], [], true)
    | some a => do
      let rn ← load h root
      let l ← minAudit fuel h rn.left
      let r ← minAudit fuel h rn.right
      let addrs := l.1 ++ [a] ++ r.1
      let es := l.2.1 ++ [(rn.time, rn.quality)] ++ r.2.1
      let here : Bool :=
        match rn.minQualityP with
        | none => false
        | some m =>
          match load h (some m) with
          | .ok mn =>
            decide (m ∈ addrs) && decide (firstByRank es = some (mn.time, mn.quality))
              && decide (rn.minQuality = mn.quality)
          | .error _ => false
      pure (addrs, es, l.2.2 && r.2.2 && here)

/-- In-order walk listing each node's time with the time of the node its `minQualityP`
designates. -/
def minTargetView : Nat → Heap → Ptr → Except Fault (List (Int × Int))
  | 0, _, _ => .error .outOfFuel
  | fuel + 1, h, root =>
    match root with
    | none => .ok []
    | some _ => do
      let rn ← load h root
      let l ← minTargetView fuel h rn.left
      let r ← minTargetView fuel h rn.right
      let mn ← load h rn.minQualityP
      pure (l ++ [(rn.time, mn.time)] ++ r)

/-- The times below the node with time `t` of the tree below `root`, in order. -/
def subtreeTimes : Nat → Heap → Ptr → Int → Except Fault (List Int)
  | 0, _, _, _ => .error .outOfFuel
  | fuel + 1, h, root, t =>
    match root with
    | none => .ok []
    | some _ => do
      let rn ← load h root
      if t < rn.time then subtreeTimes fuel h rn.left t
      else if rn.time < t then subtreeTimes fuel h rn.right t
      else
        let es ← inorder fuel h root
        pure (es.map Prod.fst)

/-- Key and stored `subtreeSize` of the root bucket of a catalog's quality tree. -/
def rootBucket (c : Catalog) : Except Fault (Int × Int) := do
  let rn ← load c.heap c.ds.qualityRoot
  pure (rn.quality, rn.subtreeSize)

/-- In-order walk listing each node's time with its stored `height` field and the actual
height of its subtree (empty tree -1, leaf 0); the first component is the actual height
of the whole tree. -/
def storedHeightView : Nat → Heap → Ptr → Except Fault (Int × List (Int × Int × Int))
  | 0, _, _ => .error .outOfFuel
  | fuel + 1, h, root =>
    match root with
    | none => .ok (-1, [])
    | some _ => do
      let rn ← load h root
      let l ← storedHeightView fuel h rn.left
      let r ← storedHeightView fuel h rn.right
      let ht := cMax l.1 r.1 + 1
      pure (ht, l.2 ++ [(rn.time, rn.height, ht)] ++ r.2)

/-- The entry `(time, quality)` of the node that `findMinQualityBetween` returns for the
time tree of a catalog. -/
def rangeMinimum (c : Catalog) (time1 time2 : Int) : Except Fault (Int × Int) := do
  let p ← findMinQualityBetween (fuelFor c.heap) c.heap c.ds.timeRoot time1 time2
  let pn ← load c.heap p
  pure (pn.time, pn.quality)

/-- The value `maxQuality` that `GetIthRankProductBetween` computes in its first loop:
`maxProduct(ds.qualityRoot)->quality + EXTRA`, in 32-bit `int` arithmetic. -/
def promotedQuality (c : Catalog) : Except Fault Int := do
  let mx ← maxProduct (fuelFor c.heap) c.heap c.ds.qualityRoot
  let mxn ← load c.heap mx
  pure (wrapInt (mxn.quality + EXTRA))

/-- In-order walk of the tree linked by `left`/`right` below `root`, listing the address
of each node with the node stored there. -/
def nodeWalk : Nat → Heap → Ptr → Except Fault (List (Nat × Product))
  | 0, _, _ => .error .outOfFuel
  | fuel + 1, h, root =>
    match root with
    | none => .ok []
    | some a => do
      let rn ← load h root
      let l ← nodeWalk fuel h rn.left
      let r ← nodeWalk fuel h rn.right
      pure (l ++ [(a, rn)] ++ r)

/-- The function `main`: the values it prints, in order.  The call of
`GetIthRankProductBetween` hands its heap on to the calls that follow it. -/
def main : Except Fault (List Int) := do
  let ds ← run 11
    [.add 4 11, .add 6 12, .add 2 13, .add 1 14, .add 3 15, .add 5 17, .add 7 17]
  let p1 ← GetIthRankProduct ds 1
  let p2 ← GetIthRankProduct ds 2
  let p3 ← GetIthRankProduct ds 6
  let p4 ← GetIthRankProduct ds 7
  let r ← GetIthRankProductBetween ds 2 6 3
  let ds := { ds with heap := r.2 }
  let p5 := r.1
  let p6 := Exists ds
  let ds ← RemoveProduct ds 4
  let p7 := Exists ds
  pure [p1, p2, p3, p4, p5, p6, p7]

/-! ## Concrete call sequences -/

/-- Four adds; the fourth makes the quality tree rotate around a bucket of two entries. -/
def bucketRotationCalls : List Op :=
  [.add 14 2, .add 19 1, .add 5 2, .add 3 0]

/-- Four adds that leave the time tree as 2 over 1 and 3, with 4 below 3. -/
def rangeLeakCalls : List Op :=
  [.add 1 3, .add 2 2, .add 3 3, .add 4 1]

/-- Four adds and two removes: the first remove empties the two-children bucket 10, the
second removes one of the two entries of quality 20. -/
def watchedLossCalls : List Op :=
  [.add 1 10, .add 2 5, .add 3 20, .add 4 20, .remove 1, .remove 3]

/-- Eight adds and one remove, after which the node with time 4 is the left child of
the node with time 6 while its `parent` field still points at the node with time 3. -/
def staleParentCalls : List Op :=
  [.add 6 0, .add 8 0, .add 2 0, .add 3 0, .add 7 0, .add 4 0, .add 5 0, .add 1 0, .remove 7]

/-- Three adds and one remove that empties the two-children bucket 10. -/
def emptiedBucketCalls : List Op :=
  [.add 1 10, .add 2 5, .add 3 20, .remove 1]

/-- Seven adds. -/
def scratchCalls : List Op :=
  [.add 1 3, .add 2 1, .add 7 4, .add 3 3, .add 6 3, .add 4 2, .add 5 2]

/-- Eight adds and three removes, the last one of an entry the time tree has lost. -/
def lostEntryCalls : List Op :=
  [.add 6 0, .add 8 1, .add 2 0, .add 3 0, .add 7 1, .add 4 0, .add 5 0, .add 1 0,
   .remove 7, .remove 8, .remove 5]

/-- Eight adds and three removes; the only entry of quality 9 has time 5, and
`remove(8)` drops its node from the time tree before `remove(5)` is called. -/
def ghostCalls : List Op :=
  [.add 6 0, .add 8 0, .add 2 0, .add 3 0, .add 7 0, .add 4 0, .add 5 9, .add 1 0,
   .remove 7, .remove 8, .remove 5]

/-- Three adds and one remove that empties the two-children bucket 1. -/
def leakedBucketCalls : List Op :=
  [.add 4 0, .add 17 1, .add 1 2, .remove 17]

/-- Twenty-one adds and one remove. -/
def tiltedCalls : List Op :=
  [.add 14 0, .add 16 0, .add 21 0, .add 15 0, .add 1 0, .add 2 0, .add 19 0, .add 7 0,
   .add 5 0, .add 18 0, .add 8 0, .add 4 0, .add 20 0, .add 12 0, .add 9 0, .add 10 0,
   .add 17 0, .add 3 0, .add 13 0, .add 6 0, .add 11 0, .remove 19]

/-- Six adds; the sixth makes `balance` rotate twice at the root of the time tree. -/
def staleMinimumCalls : List Op :=
  [.add 2 2, .add 19 0, .add 14 0, .add 10 0, .add 1 1, .add 9 1]

/-- A sequence in which `RemoveQuality 20` is called while the entry `(4, 20)` is held,
followed by an `add` of time 4. -/
def reAddedCalls : List Op :=
  [.add 1 10, .add 2 5, .add 3 20, .add 4 20, .remove 1, .remove 3, .removeQuality 20,
   .add 4 7]

/-- Eight adds with pairwise different times; the eighth goes below the right child of
the root while the left subtree of the root is the taller one. -/
def unevenCalls : List Op :=
  [.add 5 0, .add 3 0, .add 7 0, .add 2 0, .add 4 0, .add 8 0, .add 1 0, .add 6 0]

/-! ## Notions used to state and prove the ordering invariant of the time tree -/

/-- Partial-correctness postcondition of a computation that may fault. -/
def Post {α : Type} (m : Except Fault α) (Q : α → Prop) : Prop :=
  ∀ r, m = .ok r → Q r

/-- Pointer `p` is NULL or designates a cell below `len` on side `s`.  The map `ts` tells
the two sides apart: `ts a = true` for the cells allocated as nodes of the time tree,
`false` for the cells of the quality tree and of the subtrees nested in its buckets. -/
def PtrOK (ts : Nat → Bool) (s : Bool) (len : Nat) (p : Ptr) : Prop :=
  ∀ b, p = some b → b < len ∧ ts b = s

/-- The four tree pointers of a node stay on one side. -/
def NodeOK (ts : Nat → Bool) (s : Bool) (len : Nat) (n : Product) : Prop :=
  PtrOK ts s len n.left ∧ PtrOK ts s len n.right ∧ PtrOK ts s len n.parent ∧
    PtrOK ts s len n.timeSubtree

/-- Every allocated cell points only at cells of its own side. -/
def SideOK (ts : Nat → Bool) (len : Nat) (h : Heap) : Prop :=
  ∀ a n, cellAt h a = some (some n) → NodeOK ts (ts a) len n

/-- State of the heap while code runs on side `s`: side closure holds and the cells of
the other side are as in `h0`. -/
def SideInv (ts : Nat → Bool) (s : Bool) (len : Nat) (h0 h : Heap) : Prop :=
  h.length = len ∧ SideOK ts len h ∧ ∀ a, ts a = (!s) → cellAt h a = cellAt h0 a

/-- A binary tree of heap addresses, each with the key stored there. -/
inductive Tr where
  | nil
  | node (l : Tr) (a : Nat) (t : Int) (r : Tr)

/-- The pointer to the root of a tree. -/
def Tr.root : Tr → Ptr
  | .nil => none
  | .node _ a _ _ => some a

/-- The addresses of a tree, in order. -/
def Tr.addrs : Tr → List Nat
  | .nil => []
  | .node l a _ r => l.addrs ++ a :: r.addrs

/-- The time tree holds no entry with time `t` (and can be walked). -/
def timeAbsent (c : Catalog) (t : Int) : Bool :=
  match timeEntries c with
  | .ok es => es.all (fun e => e.1 != t)
  | .error _ => false

/-- Every `add` of the sequence is made with a time that the time tree does not hold at
the moment of the call. -/
def addsAbsent : Catalog → List Op → Bool
  | _, [] => true
  | c, op :: ops =>
    (match op with
      | .add t _ => timeAbsent c t
      | _ => true) &&
    (match step c op with
      | .ok c1 => addsAbsent c1 ops
      | .error _ => true)

set_option maxRecDepth 1000000 in
/-- Claim C1 (rank returns the time of the i-th entry by quality, ties by time) fails on
the code.  After `Init(0)` and the adds (14,2), (19,1), (5,2), (3,0) the time tree holds
the four entries, the fourth entry in rank order is the one with time 14, and
`GetIthRankProduct` answers -1 for `i = 4`: the right rotation of the quality tree has
set the new root's `subtreeSize` to 3, counting the two-entry bucket 2 as one entry. -/
theorem rank_misses_entry_after_bucket_rotation :
    (run 0 bucketRotationCalls).bind timeEntries = .ok [(3, 0), (5, 2), (14, 2), (19, 1)]
    ∧ rankedTime [(3, 0), (5, 2), (14, 2), (19, 1)] 4 = some 14
    ∧ (run 0 bucketRotationCalls).bind (fun c => GetIthRankProduct c 4) = .ok (-1) := by
  decide!

set_option maxRecDepth 1000000 in
/-- Claim C2 (rankInRange returns the i-th entry among exactly the entries whose time
lies in the interval) fails on the code.  After the adds (1,3), (2,2), (3,3), (4,1) the
call `GetIthRankProductBetween(1, 3, 1)` returns 4, a time outside [1, 3]; the first entry
in rank order inside [1, 3] has time 2.  `minProductLeft` consults the cached minimum of
the subtree rooted at time 3 because that root lies in the interval, and the cached
minimum is the node with time 4. -/
theorem range_rank_returns_time_outside_interval :
    (run 0 rangeLeakCalls).bind timeEntries = .ok [(1, 3), (2, 2), (3, 3), (4, 1)]
    ∧ rankedTime (inInterval 1 3 [(1, 3), (2, 2), (3, 3), (4, 1)]) 1 = some 2
    ∧ (run 0 rangeLeakCalls).bind (fun c => rangeRankThenEntries c 1 3 1)
        = .ok (4, [(1, 3), (2, 2), (3, 3), (4, 1)]) := by
  decide!

set_option maxRecDepth 1000000 in
/-- Claim C3 (exists() is 1 exactly when some current entry has the watched quality)
fails on the code.  With watched quality 20, after the adds (1,10), (2,5), (3,20), (4,20)
and `remove(1)`, `remove(3)`, the time tree still holds the entry (4,20) and `Exists`
returns 0.  Removing the last entry of the two-children bucket 10 moves bucket 20 up and
then overwrites its `timeSubtree` with NULL, so `remove(3)` finds bucket 20 empty,
deletes it and clears the flag. -/
theorem exists_cleared_while_watched_entry_remains :
    (run 20 watchedLossCalls).bind timeEntries = .ok [(2, 5), (4, 20)]
    ∧ (run 20 watchedLossCalls).map Exists = .ok 0 := by
  decide!

set_option maxRecDepth 1000000 in
/-- Claim C4 (remove(t) deletes exactly the entry with time t from TimeIndex) fails on
the code.  After eight adds and `remove(7)` the time tree holds the times 1, 2, 3, 4, 5,
6, 8; `remove(8)` then leaves 1, 2, 3, 4, 6: the entry with time 5 is gone as well.  The
double rotation in `balance` discards the result of the inner `leftRotate`, and the
node with time 4 carries a stale `parent`, so the node with time 5 is never linked back
under the node with time 6. -/
theorem remove_loses_another_entry :
    (run 0 staleParentCalls).bind timeEntries
      = .ok [(1, 0), (2, 0), (3, 0), (4, 0), (5, 0), (6, 0), (8, 0)]
    ∧ ((run 0 staleParentCalls).bind (fun c => RemoveProduct c 8)).bind timeEntries
      = .ok [(1, 0), (2, 0), (3, 0), (4, 0), (6, 0)] := by
  decide!

set_option maxRecDepth 1000000 in
/-- Claim C5 (removeAllWithQuality(q) returns and leaves no entry of quality q) fails on
the code.  After the adds (1,10), (2,5), (3,20) and `remove(1)` the time tree holds (2,5)
and (3,20), and `RemoveQuality(20)` dereferences NULL: the bucket keyed 20 exists but its
`timeSubtree` is NULL, and the loop reads `qualityNode->timeSubtree->time`. -/
theorem removeQuality_faults_on_emptied_bucket :
    (run 0 emptiedBucketCalls).bind timeEntries = .ok [(2, 5), (3, 20)]
    ∧ (run 0 emptiedBucketCalls).bind (fun c => RemoveQuality c 20)
        = .error .nullDeref := by
  decide!

set_option maxRecDepth 1000000 in
/-- Claim C7 (rankInRange leaves the TimeIndex as it found it) fails on the code.  After
seven adds the entry with time 3 has quality 3; `GetIthRankProductBetween(3, 6, 4)`
returns 3 and leaves that entry with quality 14 (the largest quality 4 plus `EXTRA`).
The node is extracted twice, so the second recorded quality is the promoted one and the
restore loop writes it back last. -/
theorem range_rank_leaves_promoted_quality :
    (run 0 scratchCalls).bind timeEntries
      = .ok [(1, 3), (2, 1), (3, 3), (4, 2), (5, 2), (6, 3), (7, 4)]
    ∧ (run 0 scratchCalls).bind (fun c => rangeRankThenEntries c 3 6 4)
      = .ok (3, [(1, 3), (2, 1), (3, 14), (4, 2), (5, 2), (6, 3), (7, 4)]) := by
  decide!

set_option maxRecDepth 1000000 in
/-- Claim C8 (on a non-empty catalog rankInRange returns -1 exactly when i exceeds the
number of entries in the interval, also for intervals holding no entry) fails on the
code.  With the single entry (5,1), no entry lies in [10, 20], and
`GetIthRankProductBetween(10, 20, 1)` dereferences NULL: `findTimeOrSuccessor` returns
NULL and the code reads its `time` before any check. -/
theorem range_rank_faults_beyond_last_entry :
    (run 0 [.add 5 1]).bind timeEntries = .ok [(5, 1)]
    ∧ inInterval 10 20 [(5, 1)] = []
    ∧ (run 0 [.add 5 1]).bind (fun c => GetIthRankProductBetween c 10 20 1)
        = .error .nullDeref := by
  decide!

set_option maxRecDepth 1000000 in
/-- Claim C9 (rank(i) returns -1 when i is below 1 or above the number of entries) fails
on the code.  After eight adds and `remove(7)`, `remove(8)`, `remove(5)` five entries
remain (times 1, 2, 3, 4, 6), and `GetIthRankProduct` answers 6 for `i = 6`.
`remove(8)` dropped the node with time 5 from the time tree, so `remove(5)` finds
nothing and leaves the entry (5,0) in the quality tree, which still counts six. -/
theorem rank_answers_beyond_entry_count :
    (run 0 lostEntryCalls).bind timeEntries = .ok [(1, 0), (2, 0), (3, 0), (4, 0), (6, 0)]
    ∧ (run 0 lostEntryCalls).bind (fun c => GetIthRankProduct c 6) = .ok 6 := by
  decide!

/-- Claim C10 (on an empty catalog rank and rankInRange both return not-found without
faulting) fails on the code for rankInRange.  On `Init(w)`, `GetIthRankProduct` returns
-1 for every `i`, and `GetIthRankProductBetween` dereferences NULL for all arguments: it
reads `findTimeOrSuccessor(NULL, left)->time` before its test for an empty structure. -/
theorem range_rank_faults_on_empty_catalog (w t1 t2 i : Int) :
    GetIthRankProduct (Init w) i = .ok (-1)
    ∧ GetIthRankProductBetween (Init w) t1 t2 i = .error .nullDeref :=
  ⟨rfl, rfl⟩

set_option maxRecDepth 1000000 in
/-- Claim C11 (removing an absent time or an absent quality leaves the whole catalog
unchanged) fails on the code for the quality half.  After eight adds and `remove(7)`,
`remove(8)`, `remove(5)` no entry has quality 9: the time tree holds five entries of
quality 0, and the only entry of quality 9, at time 5, has been removed by the caller.
`RemoveQuality(9)` nevertheless changes the quality tree: it deletes the bucket keyed 9,
which still held (5,9), and lowers the size stored in bucket 0 from 6 to 5. -/
theorem removeQuality_absent_changes_quality_tree :
    (run 0 ghostCalls).bind timeEntries = .ok [(1, 0), (2, 0), (3, 0), (4, 0), (6, 0)]
    ∧ (run 0 ghostCalls).bind qualityBuckets
        = .ok [(0, 6, [(1, 0), (2, 0), (3, 0), (4, 0), (6, 0)]), (9, 1, [(5, 9)])]
    ∧ ((run 0 ghostCalls).bind (fun c => RemoveQuality c 9)).bind qualityBuckets
        = .ok [(0, 5, [(1, 0), (2, 0), (3, 0), (4, 0), (6, 0)])] := by
  decide!

set_option maxRecDepth 1000000 in
/-- Claim C12 (exists() is 1 right after an add of the watched quality and 0 once every
entry of that quality has been removed) fails on the code.  With watched quality 9, the
run adds (5,9) as the only entry of quality 9 and later calls `remove(5)`; afterwards the
time tree holds five entries, all of quality 0, and `Exists` still returns 1.
`remove(8)` has dropped the node with time 5 from the time tree, so `remove(5)` finds
nothing and returns before it looks at the flag. -/
theorem exists_stays_set_after_last_watched_entry_removed :
    (run 9 ghostCalls).bind timeEntries = .ok [(1, 0), (2, 0), (3, 0), (4, 0), (6, 0)]
    ∧ (run 9 ghostCalls).map Exists = .ok 1 := by
  decide!

set_option maxRecDepth 1000000 in
/-- Claim C13 (the end-to-end scenario of `main`): starting from `Init(11)` and adding
(4,11), (6,12), (2,13), (1,14), (3,15), (5,17), (7,17), the code returns `rank(1) = 4`,
`rank(2) = 6`, `rank(6) = 5`, `rank(7) = 7`, `rankInRange(2,6,3) = 2`, `exists() = 1`,
and after `remove(4)`, `exists() = 0`. -/
theorem main_prints_expected_values :
    main = .ok [4, 6, 5, 7, 2, 1, 0] := by
  decide!

set_option maxRecDepth 1000000 in
/-- Claim C14 (the entries stored across the buckets of the quality tree are exactly the
entries of the time tree) fails on the code.  After the adds (1,10), (2,5), (3,20) and
`remove(1)` the time tree holds (2,5) and (3,20), while the quality tree holds (2,5)
only: the bucket keyed 20 has an empty nested subtree.  `removeProductFromQuality` moved
bucket 20 up into the place of the emptied bucket 10 and then overwrote its
`timeSubtree` with NULL. -/
theorem quality_tree_misses_time_tree_entry :
    (run 0 emptiedBucketCalls).bind timeEntries = .ok [(2, 5), (3, 20)]
    ∧ (run 0 emptiedBucketCalls).bind qualityBuckets
        = .ok [(5, 1, [(2, 5)]), (20, 2, [])] := by
  decide!

set_option maxRecDepth 1000000 in
/-- Claim C15 (at every node of the time tree and at every bucket the heights of the two
subtrees differ by at most 1) fails on the code.  After twenty-one adds and `remove(19)`
the root of the time tree, the node with time 14, has a left subtree of height 4 and a
right subtree of height 2.  Before the remove the right subtree had height 3;
`balance` compares heights recomputed from the `height` fields stored in the
grandchildren, and `insertTime` has left one of those fields too small. -/
theorem time_tree_root_out_of_balance :
    (run 0 tiltedCalls).bind
        (fun c => heightAudit (fuelFor c.heap) c.heap c.ds.timeRoot) = .ok (5, false)
    ∧ ((run 0 tiltedCalls).bind
        (fun c => heightView (fuelFor c.heap) c.heap c.ds.timeRoot)).map
          (fun v => v.2.filter (fun e => decide (e.1 = 14))) = .ok [(14, 5, 4, 2)] := by
  decide!

set_option maxRecDepth 1000000 in
/-- Claim C17 (every node of the time tree stores in `subtreeSize` the number of nodes of
its subtree) fails on the code.  After eight adds, `remove(7)` and `remove(8)` the time
tree has five nodes, with times 1, 2, 3, 4, 6; the root (time 3) stores 6 and the leaf
with time 6 stores 2.  The double rotation that dropped the node with time 5 updated the
sizes as if the node were still linked. -/
theorem time_tree_sizes_count_dropped_node :
    (run 0 (staleParentCalls ++ [.remove 8])).bind
        (fun c => sizeView (fuelFor c.heap) c.heap c.ds.timeRoot)
      = .ok [(1, 1), (2, 2), (3, 6), (4, 2), (6, 2)]
    ∧ (run 0 (staleParentCalls ++ [.remove 8])).bind
        (fun c => sizeAudit (fuelFor c.heap) c.heap c.ds.timeRoot) = .ok (5, false) := by
  decide!

set_option maxRecDepth 1000000 in
/-- Claim C18 (every bucket stores in `subtreeSize` the number of entries in its own
nested subtree plus those of the buckets below it, the root storing the total) fails on
the code.  After the adds (14,2), (19,1), (5,2), (3,0) the catalog holds four entries,
the root bucket is the one keyed 1, and it stores 3.  `rightRotate` adds 1 to the size
of the new root for the node rotated down, which is the bucket keyed 2 with two
entries. -/
theorem root_bucket_size_below_entry_count :
    (run 0 bucketRotationCalls).bind timeEntries = .ok [(3, 0), (5, 2), (14, 2), (19, 1)]
    ∧ (run 0 bucketRotationCalls).bind qualityBuckets
        = .ok [(0, 1, [(3, 0)]), (1, 3, [(19, 1)]), (2, 2, [(5, 2), (14, 2)])]
    ∧ (run 0 bucketRotationCalls).bind rootBucket = .ok (1, 3) := by
  decide!

set_option maxRecDepth 1000000 in
/-- Claim C19 (every bucket of the quality tree has a non-empty nested subtree, and
removing the last entry of one bucket costs no other bucket its contents) fails on the
code.  After the adds (4,0), (17,1), (1,2) and `remove(17)` the quality tree still has a
bucket keyed 2, and its nested subtree is empty although the entry (1,2) is in the time
tree: emptying the two-children bucket 1 moved bucket 2 up and then overwrote its
`timeSubtree` with NULL. -/
theorem bucket_left_empty_after_neighbour_removed :
    (run 0 leakedBucketCalls).bind timeEntries = .ok [(1, 2), (4, 0)]
    ∧ (run 0 leakedBucketCalls).bind qualityBuckets
        = .ok [(0, 1, [(4, 0)]), (2, 2, [])] := by
  decide!

set_option maxRecDepth 1000000 in
/-- Claim C20 (at every node of the time tree `minQualityP` designates the node of that
node's own subtree with the smallest quality, ties by time) fails on the code.  After
the adds (2,2), (19,0), (14,0), (10,0), (1,1), (9,1) the subtree of the node with time 2
holds the times 1, 2, 9, and its `minQualityP` designates the node with time 10, the
root of the whole tree.  The rotation moved the node with time 2 below the node with
time 10, and `updateMinQuality` compares the children's minima with the node's old
`minQualityP` instead of the node itself. -/
theorem min_pointer_leaves_subtree_after_rotation :
    (run 0 staleMinimumCalls).bind
        (fun c => subtreeTimes (fuelFor c.heap) c.heap c.ds.timeRoot 2) = .ok [1, 2, 9]
    ∧ (run 0 staleMinimumCalls).bind
        (fun c => minTargetView (fuelFor c.heap) c.heap c.ds.timeRoot)
      = .ok [(1, 1), (2, 10), (9, 9), (10, 10), (14, 10), (19, 19)]
    ∧ ((run 0 staleMinimumCalls).bind
        (fun c => minAudit (fuelFor c.heap) c.heap c.ds.timeRoot)).map (fun r => r.2.2)
      = .ok false := by
  decide!

set_option maxRecDepth 1000000 in
/-- Claim C21 (after adds alone, each of a time not present, every node of the time tree
stores its actual height) fails on the code.  After the adds of the times 5, 3, 7, 2, 4,
8, 1, 6, each absent from the tree when it is added, the root (time 5) has a left subtree
of height 2 and a right subtree of height 1, so its height is 3, and its `height` field
holds 2.  The last add went into the right subtree, and `insertTime` sets
`root->height = y->height + 1` from the child it descended into without looking at the
other child. -/
theorem stored_height_below_actual_after_adds :
    addsAbsent (Init 0) unevenCalls = true
    ∧ (run 0 unevenCalls).bind
        (fun c => storedHeightView (fuelFor c.heap) c.heap c.ds.timeRoot)
      = .ok (3, [(1, 0, 0), (2, 1, 1), (3, 2, 2), (4, 0, 0), (5, 2, 3), (6, 0, 0),
                 (7, 1, 1), (8, 0, 0)]) := by
  decide!

set_option maxRecDepth 1000000 in
/-- Claim C22 (on a search tree whose `minQualityP` pointers are right,
`findMinQualityBetween(root, t1, t2)` returns the smallest entry among exactly the nodes
with time in [t1, t2] and consults only cached minima of subtrees inside [t1, t2]) fails
on the code.  After the adds (1,3), (2,2), (3,3), (4,1) the time tree is in search order,
every `minQualityP` designates the smallest entry of its node's subtree, and 1 and 3 are
times of nodes.  The smallest entry with time in [1, 3] is (2,2), and
`findMinQualityBetween(root, 1, 3)` returns the node (4,1).  `minProductLeft` tests only
the root of the right subtree (time 3) against the interval and then takes the cached
minimum of that subtree, which holds the times 3 and 4. -/
theorem range_minimum_reads_cache_beyond_interval :
    (run 0 rangeLeakCalls).bind timeEntries = .ok [(1, 3), (2, 2), (3, 3), (4, 1)]
    ∧ ((run 0 rangeLeakCalls).bind
        (fun c => minAudit (fuelFor c.heap) c.heap c.ds.timeRoot)).map (fun r => r.2.2)
      = .ok true
    ∧ firstByRank (inInterval 1 3 [(1, 3), (2, 2), (3, 3), (4, 1)]) = some (2, 2)
    ∧ (run 0 rangeLeakCalls).bind
        (fun c => subtreeTimes (fuelFor c.heap) c.heap c.ds.timeRoot 3) = .ok [3, 4]
    ∧ (run 0 rangeLeakCalls).bind (fun c => rangeMinimum c 1 3) = .ok (4, 1) := by
  decide!

set_option maxRecDepth 1000000 in
/-- Claim C23 (successor-or-self and predecessor-or-self return not-found only when the
tree is empty) fails as stated.  After the single add (5,1) the time tree holds one node,
`findTimeOrSuccessor(root, 10)` returns NULL because no time is 10 or larger, and
`findTimeOrPredecessor(root, 1)` returns NULL because no time is 1 or smaller. -/
theorem bound_search_finds_nothing_in_nonempty_tree :
    (run 0 [.add 5 1]).bind timeEntries = .ok [(5, 1)]
    ∧ (run 0 [.add 5 1]).bind
        (fun c => findTimeOrSuccessor (fuelFor c.heap) c.heap c.ds.timeRoot 10) = .ok none
    ∧ (run 0 [.add 5 1]).bind
        (fun c => findTimeOrPredecessor (fuelFor c.heap) c.heap c.ds.timeRoot 1)
      = .ok none := by
  decide!

set_option maxRecDepth 1000000 in
/-- Claim C24 (in every reachable non-empty catalog the promoted quality, the key of the
largest bucket plus `EXTRA` in `int` arithmetic, is above the quality of every entry of
the time tree) fails on the code, in two ways.  (1) After the adds (1,10), (2,5), (3,20),
(4,20) and `remove(1)`, `remove(3)` the time tree holds (2,5) and (4,20), the only bucket
left is the one keyed 5, and the promoted quality is 15, below 20;
`GetIthRankProductBetween(2, 4, 2)` then extracts the entry with time 2 twice and returns
2.  (2) After the adds (1, 2147483647), (2, 2147483647) the sum leaves the `int` range;
wrapped to 32 bits it is -2147483639, and `GetIthRankProductBetween(1, 2, 2)` returns 1
while `GetIthRankProduct(2)` returns 2. -/
theorem promoted_quality_not_above_held_quality :
    (run 0 watchedLossCalls).bind timeEntries = .ok [(2, 5), (4, 20)]
    ∧ (run 0 watchedLossCalls).bind promotedQuality = .ok 15
    ∧ ((run 0 watchedLossCalls).bind
        (fun c => GetIthRankProductBetween c 2 4 2)).map Prod.fst = .ok 2
    ∧ (run 0 [.add 1 2147483647, .add 2 2147483647]).bind timeEntries
        = .ok [(1, 2147483647), (2, 2147483647)]
    ∧ (run 0 [.add 1 2147483647, .add 2 2147483647]).bind promotedQuality
        = .ok (-2147483639)
    ∧ ((run 0 [.add 1 2147483647, .add 2 2147483647]).bind
        (fun c => GetIthRankProductBetween c 1 2 2)).map Prod.fst = .ok 1
    ∧ (run 0 [.add 1 2147483647, .add 2 2147483647]).bind
        (fun c => GetIthRankProduct c 2) = .ok 2 := by
  decide!

set_option maxRecDepth 1000000 in
/-- Claim C27 (over the full time span `rankInRange(tmin, tmax, i)` equals `rank(i)`)
fails on the code.  After the adds (14,2), (19,1), (5,2), (3,0) the catalog holds four
entries with times from 3 to 19; `GetIthRankProductBetween(3, 19, 4)` returns 14, the
fourth entry in rank order, and leaves the time tree as it was, while
`GetIthRankProduct(4)` returns -1: the rotation of the quality tree has set the root
bucket's `subtreeSize` to 3. -/
theorem rank_and_full_span_range_rank_disagree :
    (run 0 bucketRotationCalls).bind timeEntries = .ok [(3, 0), (5, 2), (14, 2), (19, 1)]
    ∧ (run 0 bucketRotationCalls).bind (fun c => rangeRankThenEntries c 3 19 4)
        = .ok (14, [(3, 0), (5, 2), (14, 2), (19, 1)])
    ∧ (run 0 bucketRotationCalls).bind (fun c => GetIthRankProduct c 4) = .ok (-1) := by
  decide!

/-! ## The ordering invariant of the time tree

The proofs below follow the code statement by statement.  `Post m Q` says that `Q` holds
of the result whenever the computation `m` returns.  Two facts are carried through every
function: the cells of the time tree and the cells of the quality tree never point at each
other (`SideOK`), and the cells linked from the time root form a search tree in which no
`parent` field designates a node of the node's own subtree (`Good`). -/

set_option linter.unusedTactic false
set_option linter.unreachableTactic false
set_option linter.unusedVariables false

theorem cellAt_lt (h : Heap) (a : Nat) : cellAt h a ≠ none ↔ a < h.length := by
  induction h generalizing a with
  | nil => simp [cellAt]
  | cons c cs ih =>
    cases a with
    | zero => simp [cellAt]
    | succ a => simp [cellAt, ih]

theorem cellAt_setCell_same (h : Heap) (a : Nat) (v : Option Product) (hlt : a < h.length) :
    cellAt (setCell h a v) a = some v := by
  induction h generalizing a with
  | nil => simp at hlt
  | cons c cs ih =>
    cases a with
    | zero => simp [setCell, cellAt]
    | succ a => simp only [setCell, cellAt]; exact ih a (by simpa using hlt)

theorem cellAt_setCell_other (h : Heap) (a b : Nat) (v : Option Product) (hne : b ≠ a) :
    cellAt (setCell h a v) b = cellAt h b := by
  induction h generalizing a b with
  | nil => simp [setCell, cellAt]
  | cons c cs ih =>
    cases a with
    | zero =>
      cases b with
      | zero => exact absurd rfl hne
      | succ b => simp [setCell, cellAt]
    | succ a =>
      cases b with
      | zero => simp [setCell, cellAt]
      | succ b => simp only [setCell, cellAt]; exact ih a b (by omega)

theorem cellAt_some_lt {h : Heap} {a : Nat} {c : Option Product} (hc : cellAt h a = some c) :
    a < h.length := by
  rw [← cellAt_lt]; simp [hc]

theorem cellAt_append_left (h : Heap) (c : Option Product) (a : Nat) (hlt : a < h.length) :
    cellAt (h ++ [c]) a = cellAt h a := by
  induction h generalizing a with
  | nil => simp at hlt
  | cons d ds ih =>
    cases a with
    | zero => simp [cellAt]
    | succ a => simp only [List.cons_append, cellAt]; exact ih a (by simpa using hlt)

theorem cellAt_append_new (h : Heap) (c : Option Product) :
    cellAt (h ++ [c]) h.length = some c := by
  induction h with
  | nil => simp [cellAt]
  | cons d ds ih => simp only [List.cons_append, List.length_cons, cellAt]; exact ih

theorem cellAt_ge (h : Heap) (a : Nat) (hge : h.length ≤ a) : cellAt h a = none := by
  by_contra hc
  have := (cellAt_lt h a).1 hc
  omega

theorem post_map {α β : Type} (m : Except Fault α) (g : α → β) (Q : β → Prop) :
    Post (g <$> m) Q ↔ Post m (fun a => Q (g a)) := by
  cases m with
  | error e => simp [Post, Functor.map, Except.map]
  | ok a => simp [Post, Functor.map, Except.map]

theorem ptrOK_none (ts : Nat → Bool) (s : Bool) (len : Nat) : PtrOK ts s len none := by
  intro b hb; cases hb

theorem ptrOK_mono {ts : Nat → Bool} {s : Bool} {len len1 : Nat} {p : Ptr}
    (hle : len ≤ len1) (hp : PtrOK ts s len p) : PtrOK ts s len1 p := by
  intro b hb
  have := hp b hb
  exact ⟨by omega, this.2⟩

theorem sideInv_alloc {ts : Nat → Bool} {s : Bool} {len : Nat} {h0 h : Heap} {n : Product}
    (hJ : SideInv ts s len h0 h) (hts : ∀ a, len ≤ a → ts a = s)
    (hn : NodeOK ts s (len + 1) n) :
    SideInv ts s (len + 1) h0 (h ++ [some n]) ∧ PtrOK ts s (len + 1) (some h.length) := by
  obtain ⟨hlen, hok, hfr⟩ := hJ
  refine ⟨⟨by simp [hlen], ?_, ?_⟩, ?_⟩
  · intro b k hb
    by_cases hbl : b < h.length
    · rw [cellAt_append_left _ _ _ hbl] at hb
      have := hok b k hb
      exact ⟨ptrOK_mono (Nat.le_succ _) this.1, ptrOK_mono (Nat.le_succ _) this.2.1,
        ptrOK_mono (Nat.le_succ _) this.2.2.1, ptrOK_mono (Nat.le_succ _) this.2.2.2⟩
    · have hb2 : b < (h ++ [some n]).length := cellAt_some_lt hb
      have hbe : b = h.length := by simp at hb2; omega
      subst hbe
      rw [cellAt_append_new] at hb
      cases hb
      rw [hts _ (by omega)]
      exact hn
  · intro b hb
    have hbl : b < h.length := by
      by_contra hc
      have := hts b (by omega)
      rw [this] at hb
      cases s <;> simp at hb
    rw [cellAt_append_left _ _ _ hbl]
    exact hfr b hb
  · intro b hb
    cases hb
    exact ⟨by omega, hts _ (by omega)⟩

theorem creatNewProduct_side {ts : Nat → Bool} {s : Bool} {len : Nat} {h0 h : Heap}
    (hJ : SideInv ts s len h0 h) (hts : ∀ a, len ≤ a → ts a = s) (t q : Int) :
    SideInv ts s (len + 1) h0 (creatNewProduct h t q).2 ∧
      PtrOK ts s (len + 1) (creatNewProduct h t q).1 := by
  unfold creatNewProduct alloc
  exact sideInv_alloc hJ hts
    ⟨ptrOK_none _ _ _, ptrOK_none _ _ _, ptrOK_none _ _ _, ptrOK_none _ _ _⟩

set_option maxRecDepth 1000000 in
/-- Limit of the ordering invariant: it speaks of adds of times the time tree does not
hold.  In this run `RemoveQuality 20` leaves the entry `(4, 20)` in the time tree (its bucket
was emptied by the earlier `RemoveProduct 1`), so the later `AddProduct 4 7` is an add of a
time the tree still holds, and the tree then has two nodes with time 4. -/
theorem add_after_failed_bulk_removal_repeats_time :
    (run 0 (reAddedCalls.take 7)).bind timeEntries = .ok [(2, 5), (4, 20)] ∧
      addsAbsent (Init 0) reAddedCalls = false ∧
      (run 0 reAddedCalls).bind timeEntries = .ok [(2, 5), (4, 20), (4, 7)] := by
  decide!

/-! ## Bound search and quality update on an ordered time tree

The in-order walk `nodeWalk` lists the nodes below a root with their addresses.  A tree is
in search order when the walk succeeds and the times it lists increase strictly.  The two
bound searches and `updateToNewQuality` are followed down such a tree, with the fuel that
suffices for the walk. -/

theorem setCell_self {h : Heap} {a : Nat} {v : Option Product}
    (hc : cellAt h a = some v) : setCell h a v = h := by
  induction h generalizing a with
  | nil => rfl
  | cons c cs ih =>
    cases a with
    | zero =>
      simp only [cellAt] at hc
      cases hc
      rfl
    | succ a =>
      simp only [cellAt] at hc
      simp only [setCell, ih hc]

theorem load_ok {h : Heap} {a : Nat} {n : Product} :
    load h (some a) = .ok n ↔ cellAt h a = some (some n) := by
  constructor
  · intro hl
    simp only [load] at hl
    split at hl
    · rename_i m hc
      cases hl
      exact hc
    · cases hl
  · intro hc
    simp [load, hc]

theorem store_ok {h : Heap} {a : Nat} {m n : Product} (hc : cellAt h a = some (some m)) :
    store h (some a) n = .ok (setCell h a (some n)) := by
  simp [store, hc]

theorem nodeWalk_inv {fuel : Nat} {h : Heap} {a : Nat} {ns : List (Nat × Product)}
    (hw : nodeWalk (fuel + 1) h (some a) = .ok ns) :
    ∃ n l r, cellAt h a = some (some n) ∧ nodeWalk fuel h n.left = .ok l ∧
      nodeWalk fuel h n.right = .ok r ∧ ns = l ++ [(a, n)] ++ r := by
  rw [nodeWalk] at hw
  cases hl : load h (some a) with
  | error e => simp only [hl, bind, Except.bind] at hw; cases hw
  | ok n =>
    cases h1 : nodeWalk fuel h n.left with
    | error e => simp only [hl, h1, bind, Except.bind] at hw; cases hw
    | ok l =>
      cases h2 : nodeWalk fuel h n.right with
      | error e => simp only [hl, h1, h2, bind, Except.bind] at hw; cases hw
      | ok r =>
        simp only [hl, h1, h2, bind, Except.bind, pure, Except.pure] at hw
        cases hw
        exact ⟨n, l, r, load_ok.1 hl, h1, h2, rfl⟩

theorem nodeWalk_cell {fuel : Nat} {h : Heap} {root : Ptr} {ns : List (Nat × Product)}
    (hw : nodeWalk fuel h root = .ok ns) {a : Nat} {n : Product} (hm : (a, n) ∈ ns) :
    cellAt h a = some (some n) := by
  induction fuel generalizing root ns with
  | zero => rw [nodeWalk] at hw; cases hw
  | succ fuel ih =>
    cases root with
    | none =>
      rw [nodeWalk] at hw
      cases hw
      cases hm
    | some b =>
      obtain ⟨m, l, r, hc, hl, hr, rfl⟩ := nodeWalk_inv hw
      simp only [List.mem_append, List.mem_singleton, Prod.mk.injEq] at hm
      rcases hm with (hm | ⟨rfl, rfl⟩) | hm
      · exact ih hl hm
      · exact hc
      · exact ih hr hm


/-- Loop invariant of `findTimeOrSuccessorLoop`: the result is the node of the walked
subtree with the least time at or above `t`, or the candidate handed in when the subtree
has no such node. -/
theorem findTimeOrSuccessorLoop_spec (fuel : Nat) (h : Heap) (root successor : Ptr)
    (ns : List (Nat × Product)) (t : Int)
    (hw : nodeWalk fuel h root = .ok ns)
    (hord : ns.Pairwise (fun x y => x.2.time < y.2.time)) :
    ∃ p, findTimeOrSuccessorLoop fuel h successor root t = .ok p ∧
      ((∃ a n, p = some a ∧ (a, n) ∈ ns ∧ t ≤ n.time ∧
          ∀ e ∈ ns, t ≤ e.2.time → n.time ≤ e.2.time) ∨
        (p = successor ∧ ∀ e ∈ ns, e.2.time < t)) := by
  induction fuel generalizing root successor ns with
  | zero => rw [nodeWalk] at hw; cases hw
  | succ fuel ih =>
    cases root with
    | none =>
      rw [nodeWalk] at hw
      cases hw
      exact ⟨successor, by rw [findTimeOrSuccessorLoop], Or.inr ⟨rfl, by simp⟩⟩
    | some b =>
      obtain ⟨m, l, r, hc, hl, hr, rfl⟩ := nodeWalk_inv hw
      rw [List.append_assoc, List.pairwise_append] at hord
      obtain ⟨hol, hor, hlr⟩ := hord
      rw [List.singleton_append, List.pairwise_cons] at hor
      obtain ⟨hmr, hor⟩ := hor
      have hlm : ∀ e ∈ l, e.2.time < m.time := fun e he => hlr e he (b, m) (by simp)
      rw [findTimeOrSuccessorLoop]
      simp only [load_ok.2 hc, bind, Except.bind]
      by_cases h1 : m.time > t
      · rw [if_pos h1]
        obtain ⟨p, hp, hq⟩ := ih m.left (some b) l hl hol
        refine ⟨p, hp, Or.inl ?_⟩
        rcases hq with ⟨a, n, rfl, hm, htn, hmin⟩ | ⟨rfl, hall⟩
        · refine ⟨a, n, rfl, by simp [hm], htn, ?_⟩
          intro e he hte
          simp only [List.mem_append, List.mem_singleton] at he
          rcases he with (he | rfl) | he
          · exact hmin e he hte
          · exact le_of_lt (hlm _ hm)
          · exact le_of_lt (lt_trans (hlm _ hm) (hmr e he))
        · refine ⟨b, m, rfl, by simp, le_of_lt h1, ?_⟩
          intro e he hte
          simp only [List.mem_append, List.mem_singleton] at he
          rcases he with (he | rfl) | he
          · exact absurd (hall e he) (not_lt.2 hte)
          · exact le_refl _
          · exact le_of_lt (hmr e he)
      · rw [if_neg h1]
        by_cases h2 : m.time < t
        · rw [if_pos h2]
          obtain ⟨p, hp, hq⟩ := ih m.right successor r hr hor
          refine ⟨p, hp, ?_⟩
          rcases hq with ⟨a, n, rfl, hm, htn, hmin⟩ | ⟨rfl, hall⟩
          · refine Or.inl ⟨a, n, rfl, by simp [hm], htn, ?_⟩
            intro e he hte
            simp only [List.mem_append, List.mem_singleton] at he
            rcases he with (he | rfl) | he
            · exact absurd (lt_trans (hlm e he) h2) (not_lt.2 hte)
            · exact absurd h2 (not_lt.2 hte)
            · exact hmin e he hte
          · refine Or.inr ⟨rfl, ?_⟩
            intro e he
            simp only [List.mem_append, List.mem_singleton] at he
            rcases he with (he | rfl) | he
            · exact lt_trans (hlm e he) h2
            · exact h2
            · exact hall e he
        · rw [if_neg h2]
          have hmt : m.time = t := le_antisymm (not_lt.1 h1) (not_lt.1 h2)
          refine ⟨some b, rfl, Or.inl ⟨b, m, rfl, by simp, le_of_eq hmt.symm, ?_⟩⟩
          intro e he hte
          simp only [List.mem_append, List.mem_singleton] at he
          rcases he with (he | rfl) | he
          · exact absurd (hmt ▸ hlm e he) (not_lt.2 hte)
          · exact le_refl _
          · exact le_of_lt (hmr e he)


theorem product_eta (m : Product) :
    ({ time := m.time, quality := m.quality, parent := m.parent, left := m.left, right := m.right, twin := m.twin, timeSubtree := m.timeSubtree, minQualityP := m.minQualityP, height := m.height, subtreeSize := m.subtreeSize, minQuality := m.minQuality } : Product) = m := by
  cases m
  rfl

/-- The descent of `updateToNewQuality` to the node `(a, n)` with time `t`: it returns the
root it was given and a heap that differs from the old one in the `quality` field of cell
`a` only. -/
theorem updateToNewQuality_spec (fuel : Nat) (h : Heap) (root : Ptr)
    (ns : List (Nat × Product)) (t q : Int) (a : Nat) (n : Product)
    (hw : nodeWalk fuel h root = .ok ns)
    (hord : ns.Pairwise (fun x y => x.2.time < y.2.time))
    (hm : (a, n) ∈ ns) (ht : n.time = t) :
    updateToNewQuality fuel h root t q
      = .ok (root, setCell h a (some { n with quality := q })) := by
  induction fuel generalizing root ns with
  | zero => rw [nodeWalk] at hw; cases hw
  | succ fuel ih =>
    cases root with
    | none =>
      rw [nodeWalk] at hw
      cases hw
      cases hm
    | some b =>
      obtain ⟨m, l, r, hc, hl, hr, rfl⟩ := nodeWalk_inv hw
      have hca := nodeWalk_cell hw hm
      rw [List.append_assoc, List.pairwise_append] at hord
      obtain ⟨hol, hor, hlr⟩ := hord
      rw [List.singleton_append, List.pairwise_cons] at hor
      obtain ⟨hmr, hor⟩ := hor
      have hlm : ∀ e ∈ l, e.2.time < m.time := fun e he => hlr e he (b, m) (by simp)
      simp only [List.mem_append, List.mem_singleton, Prod.mk.injEq] at hm
      rw [updateToNewQuality]
      simp only [load_ok.2 hc, bind, Except.bind, pure, Except.pure]
      rcases hm with (hm | ⟨rfl, rfl⟩) | hm
      · have h1 : m.time > t := ht ▸ hlm _ hm
        have hne : b ≠ a := by
          rintro rfl
          rw [hc] at hca
          cases hca
          exact absurd ht (ne_of_gt h1)
        have hc1 : cellAt (setCell h a (some { n with quality := q })) b = some (some m) := by
          rw [cellAt_setCell_other _ _ _ _ hne]; exact hc
        rw [if_pos h1, ih m.left l hl hol hm]
        simp only [load_ok.2 hc1, store_ok hc1, product_eta, setCell_self hc1,
          if_neg (not_lt.2 (le_of_lt h1)), if_neg (ne_of_gt h1)]
      · subst ht
        have h1 : ¬ n.time > n.time := lt_irrefl _
        rw [if_neg h1]
        simp only [load_ok.2 hc, store_ok hc, if_neg (lt_irrefl n.time), if_true]
      · have h2 : m.time < t := ht ▸ hmr _ hm
        have hne : b ≠ a := by
          rintro rfl
          rw [hc] at hca
          cases hca
          exact absurd ht (ne_of_lt h2)
        have hc1 : cellAt (setCell h a (some { n with quality := q })) b = some (some m) := by
          rw [cellAt_setCell_other _ _ _ _ hne]; exact hc
        rw [if_neg (not_lt.2 (le_of_lt h2))]
        simp only [load_ok.2 hc, if_pos h2, ih m.right r hr hor hm, load_ok.2 hc1,
          store_ok hc1, product_eta, setCell_self hc1]


/-- Loop invariant of `findTimeOrPredecessorLoop`, the mirror image of
`findTimeOrSuccessorLoop_spec`. -/
theorem findTimeOrPredecessorLoop_spec (fuel : Nat) (h : Heap) (root predecessor : Ptr)
    (ns : List (Nat × Product)) (t : Int)
    (hw : nodeWalk fuel h root = .ok ns)
    (hord : ns.Pairwise (fun x y => x.2.time < y.2.time)) :
    ∃ p, findTimeOrPredecessorLoop fuel h predecessor root t = .ok p ∧
      ((∃ a n, p = some a ∧ (a, n) ∈ ns ∧ n.time ≤ t ∧
          ∀ e ∈ ns, e.2.time ≤ t → e.2.time ≤ n.time) ∨
        (p = predecessor ∧ ∀ e ∈ ns, t < e.2.time)) := by
  induction fuel generalizing root predecessor ns with
  | zero => rw [nodeWalk] at hw; cases hw
  | succ fuel ih =>
    cases root with
    | none =>
      rw [nodeWalk] at hw
      cases hw
      exact ⟨predecessor, by rw [findTimeOrPredecessorLoop], Or.inr ⟨rfl, by simp⟩⟩
    | some b =>
      obtain ⟨m, l, r, hc, hl, hr, rfl⟩ := nodeWalk_inv hw
      rw [List.append_assoc, List.pairwise_append] at hord
      obtain ⟨hol, hor, hlr⟩ := hord
      rw [List.singleton_append, List.pairwise_cons] at hor
      obtain ⟨hmr, hor⟩ := hor
      have hlm : ∀ e ∈ l, e.2.time < m.time := fun e he => hlr e he (b, m) (by simp)
      rw [findTimeOrPredecessorLoop]
      simp only [load_ok.2 hc, bind, Except.bind]
      by_cases h1 : m.time < t
      · rw [if_pos h1]
        obtain ⟨p, hp, hq⟩ := ih m.right (some b) r hr hor
        refine ⟨p, hp, Or.inl ?_⟩
        rcases hq with ⟨a, n, rfl, hm, htn, hmax⟩ | ⟨rfl, hall⟩
        · refine ⟨a, n, rfl, by simp [hm], htn, ?_⟩
          intro e he hte
          simp only [List.mem_append, List.mem_singleton] at he
          rcases he with (he | rfl) | he
          · exact le_of_lt (lt_trans (hlm e he) (hmr _ hm))
          · exact le_of_lt (hmr _ hm)
          · exact hmax e he hte
        · refine ⟨b, m, rfl, by simp, le_of_lt h1, ?_⟩
          intro e he hte
          simp only [List.mem_append, List.mem_singleton] at he
          rcases he with (he | rfl) | he
          · exact le_of_lt (hlm e he)
          · exact le_refl _
          · exact absurd (hall e he) (not_lt.2 hte)
      · rw [if_neg h1]
        by_cases h2 : m.time > t
        · rw [if_pos h2]
          obtain ⟨p, hp, hq⟩ := ih m.left predecessor l hl hol
          refine ⟨p, hp, ?_⟩
          rcases hq with ⟨a, n, rfl, hm, htn, hmax⟩ | ⟨rfl, hall⟩
          · refine Or.inl ⟨a, n, rfl, by simp [hm], htn, ?_⟩
            intro e he hte
            simp only [List.mem_append, List.mem_singleton] at he
            rcases he with (he | rfl) | he
            · exact hmax e he hte
            · exact absurd h2 (not_lt.2 hte)
            · exact absurd (lt_trans h2 (hmr e he)) (not_lt.2 hte)
          · refine Or.inr ⟨rfl, ?_⟩
            intro e he
            simp only [List.mem_append, List.mem_singleton] at he
            rcases he with (he | rfl) | he
            · exact hall e he
            · exact h2
            · exact lt_trans h2 (hmr e he)
        · rw [if_neg h2]
          have hmt : m.time = t := le_antisymm (not_lt.1 h2) (not_lt.1 h1)
          refine ⟨some b, rfl, Or.inl ⟨b, m, rfl, by simp, le_of_eq hmt, ?_⟩⟩
          intro e he hte
          simp only [List.mem_append, List.mem_singleton] at he
          rcases he with (he | rfl) | he
          · exact le_of_lt (hlm e he)
          · exact le_refl _
          · exact absurd (hmt ▸ hmr e he) (not_lt.2 hte)

/-- Replacing the node in cell `a` by one with the same child links changes the walk at
the entry of cell `a` only. -/
theorem nodeWalk_setCell (fuel : Nat) (h : Heap) (root : Ptr) (ns : List (Nat × Product))
    (a : Nat) (n n1 : Product)
    (hw : nodeWalk fuel h root = .ok ns) (hca : cellAt h a = some (some n))
    (hleft : n1.left = n.left) (hright : n1.right = n.right) :
    nodeWalk fuel (setCell h a (some n1)) root
      = .ok (ns.map (fun e => if e.1 = a then (a, n1) else e)) := by
  induction fuel generalizing root ns with
  | zero => rw [nodeWalk] at hw; cases hw
  | succ fuel ih =>
    cases root with
    | none =>
      rw [nodeWalk] at hw
      cases hw
      rw [nodeWalk]
      rfl
    | some b =>
      obtain ⟨m, l, r, hc, hl, hr, rfl⟩ := nodeWalk_inv hw
      rw [nodeWalk]
      by_cases hba : b = a
      · subst hba
        rw [hc] at hca
        cases hca
        have hc1 : cellAt (setCell h b (some n1)) b = some (some n1) :=
          cellAt_setCell_same _ _ _ (cellAt_some_lt hc)
        simp only [load_ok.2 hc1, bind, Except.bind, pure, Except.pure, hleft, hright,
          ih _ _ hl, ih _ _ hr, List.map_append, List.map_cons, List.map_nil, if_true]
      · have hc1 : cellAt (setCell h a (some n1)) b = some (some m) := by
          rw [cellAt_setCell_other _ _ _ _ hba]; exact hc
        simp only [load_ok.2 hc1, bind, Except.bind, pure, Except.pure,
          ih _ _ hl, ih _ _ hr, List.map_append, List.map_cons, List.map_nil, if_neg hba]

theorem pairwise_time_unique {ns : List (Nat × Product)}
    (hord : ns.Pairwise (fun x y => x.2.time < y.2.time))
    {e1 e2 : Nat × Product} (h1 : e1 ∈ ns) (h2 : e2 ∈ ns) (ht : e1.2.time = e2.2.time) :
    e1 = e2 := by
  by_contra hne
  have hp : ns.Pairwise (fun x y => x.2.time ≠ y.2.time) :=
    hord.imp (fun hxy => ne_of_lt hxy)
  exact hp.forall (fun x y hxy => hxy.symm) h1 h2 hne ht

/-- Claim C23, amended.  For a time tree in search order (the in-order walk from `root`
succeeds and lists strictly increasing times) and every `t`:
`findTimeOrSuccessor(root, t)` returns NULL exactly when no node has a time at or above
`t`, and otherwise the node with the least time at or above `t`, which is the node with
time `t` when there is one; `findTimeOrPredecessor(root, t)` returns NULL exactly when no
node has a time at or below `t`, and otherwise the node with the greatest time at or
below `t`. -/
theorem bound_search_returns_tightest_node (fuel : Nat) (h : Heap) (root : Ptr)
    (ns : List (Nat × Product)) (t : Int)
    (hwalk : nodeWalk fuel h root = .ok ns)
    (hord : ns.Pairwise (fun x y => x.2.time < y.2.time)) :
    (∃ p, findTimeOrSuccessor fuel h root t = .ok p ∧
      ((p = none ∧ ∀ e ∈ ns, e.2.time < t) ∨
        (∃ a n, p = some a ∧ (a, n) ∈ ns ∧ t ≤ n.time ∧
          ∀ e ∈ ns, t ≤ e.2.time → n.time ≤ e.2.time))) ∧
    (∃ p, findTimeOrPredecessor fuel h root t = .ok p ∧
      ((p = none ∧ ∀ e ∈ ns, t < e.2.time) ∨
        (∃ a n, p = some a ∧ (a, n) ∈ ns ∧ n.time ≤ t ∧
          ∀ e ∈ ns, e.2.time ≤ t → e.2.time ≤ n.time))) := by
  constructor
  · obtain ⟨p, hp, hq⟩ := findTimeOrSuccessorLoop_spec fuel h root none ns t hwalk hord
    exact ⟨p, hp, hq.symm⟩
  · obtain ⟨p, hp, hq⟩ := findTimeOrPredecessorLoop_spec fuel h root none ns t hwalk hord
    exact ⟨p, hp, hq.symm⟩

/-- Claim C26.  For a time tree in search order (the in-order walk from `root` succeeds
and lists strictly increasing times) that has a node with time `t`,
`updateToNewQuality(root, t, q)` returns the root it was given, and the heap it leaves
differs from the old one only in the `quality` field of the cell `a` of that node, which
now holds `q`.  The walk of the new heap visits the same addresses in the same order, and
every node it lists is the old one (same time, links, `height`, `subtreeSize` and so on),
except that the node with time `t` has quality `q`. -/
theorem updateToNewQuality_changes_only_quality (fuel : Nat) (h : Heap) (root : Ptr)
    (ns : List (Nat × Product)) (t q : Int)
    (hwalk : nodeWalk fuel h root = .ok ns)
    (hord : ns.Pairwise (fun x y => x.2.time < y.2.time))
    (ht : ∃ e ∈ ns, e.2.time = t) :
    ∃ a n, (a, n) ∈ ns ∧ n.time = t ∧
      updateToNewQuality fuel h root t q
        = .ok (root, setCell h a (some { n with quality := q })) ∧
      nodeWalk fuel (setCell h a (some { n with quality := q })) root
        = .ok (ns.map (fun e => if e.2.time = t then (e.1, { e.2 with quality := q }) else e)) := by
  obtain ⟨⟨a, n⟩, hm, hnt⟩ := ht
  have hnt : n.time = t := hnt
  refine ⟨a, n, hm, hnt, updateToNewQuality_spec fuel h root ns t q a n hwalk hord hm hnt, ?_⟩
  rw [nodeWalk_setCell fuel h root ns a n { n with quality := q } hwalk
    (nodeWalk_cell hwalk hm) rfl rfl]
  congr 1
  apply List.map_congr_left
  intro e he
  by_cases hea : e.1 = a
  · have hce := nodeWalk_cell hwalk (show (e.1, e.2) ∈ ns from he)
    rw [hea, nodeWalk_cell hwalk hm] at hce
    have hen : n = e.2 := Option.some.inj (Option.some.inj hce)
    rw [if_pos hea, if_pos (hen ▸ hnt), hea, ← hen]
  · have hne : ¬ e.2.time = t := by
      intro het
      have := pairwise_time_unique hord he hm (het.trans hnt.symm)
      exact hea (congrArg Prod.fst this)
    rw [if_neg hea, if_neg hne]

set_option maxRecDepth 1000000 in
theorem bound_search_returns_tightest_node_witness :
    ∃ c ns, run 0 scratchCalls = .ok c ∧
      nodeWalk (fuelFor c.heap) c.heap c.ds.timeRoot = .ok ns ∧
      ns.Pairwise (fun x y => x.2.time < y.2.time) ∧
      ((∃ p, findTimeOrSuccessor (fuelFor c.heap) c.heap c.ds.timeRoot 8 = .ok p ∧
        ((p = none ∧ ∀ e ∈ ns, e.2.time < 8) ∨
          (∃ a n, p = some a ∧ (a, n) ∈ ns ∧ 8 ≤ n.time ∧
            ∀ e ∈ ns, 8 ≤ e.2.time → n.time ≤ e.2.time))) ∧
      (∃ p, findTimeOrPredecessor (fuelFor c.heap) c.heap c.ds.timeRoot 8 = .ok p ∧
        ((p = none ∧ ∀ e ∈ ns, 8 < e.2.time) ∨
          (∃ a n, p = some a ∧ (a, n) ∈ ns ∧ n.time ≤ 8 ∧
            ∀ e ∈ ns, e.2.time ≤ 8 → e.2.time ≤ n.time)))) := by
  have hok : (match run 0 scratchCalls with
    | .ok c =>
      (match nodeWalk (fuelFor c.heap) c.heap c.ds.timeRoot with
        | .ok ns => decide (ns.Pairwise (fun x y => x.2.time < y.2.time))
        | .error _ => false)
    | .error _ => false) = true := by decide!
  cases hr : run 0 scratchCalls with
  | error e => rw [hr] at hok; cases hok
  | ok c =>
    rw [hr] at hok
    cases hw : nodeWalk (fuelFor c.heap) c.heap c.ds.timeRoot with
    | error e => simp only [hw] at hok; cases hok
    | ok ns =>
      simp only [hw] at hok
      have hord := of_decide_eq_true hok
      exact ⟨c, ns, rfl, hw, hord,
        bound_search_returns_tightest_node (fuelFor c.heap) c.heap c.ds.timeRoot ns 8 hw hord⟩

set_option maxRecDepth 1000000 in
theorem updateToNewQuality_changes_only_quality_witness :
    ∃ c ns, run 0 scratchCalls = .ok c ∧
      nodeWalk (fuelFor c.heap) c.heap c.ds.timeRoot = .ok ns ∧
      ns.Pairwise (fun x y => x.2.time < y.2.time) ∧
      (∃ e ∈ ns, e.2.time = 4) ∧
      ∃ a n, (a, n) ∈ ns ∧ n.time = 4 ∧
        updateToNewQuality (fuelFor c.heap) c.heap c.ds.timeRoot 4 99
          = .ok (c.ds.timeRoot, setCell c.heap a (some { n with quality := 99 })) ∧
        nodeWalk (fuelFor c.heap) (setCell c.heap a (some { n with quality := 99 }))
            c.ds.timeRoot
          = .ok (ns.map
              (fun e => if e.2.time = 4 then (e.1, { e.2 with quality := 99 }) else e)) := by
  have hok : (match run 0 scratchCalls with
    | .ok c =>
      (match nodeWalk (fuelFor c.heap) c.heap c.ds.timeRoot with
        | .ok ns => decide (ns.Pairwise (fun x y => x.2.time < y.2.time))
            && ns.any (fun e => decide (e.2.time = 4))
        | .error _ => false)
    | .error _ => false) = true := by decide!
  cases hr : run 0 scratchCalls with
  | error e => rw [hr] at hok; cases hok
  | ok c =>
    rw [hr] at hok
    cases hw : nodeWalk (fuelFor c.heap) c.heap c.ds.timeRoot with
    | error e => simp only [hw] at hok; cases hok
    | ok ns =>
      simp only [hw, Bool.and_eq_true, List.any_eq_true, decide_eq_true_eq] at hok
      exact ⟨c, ns, rfl, hw, hok.1, hok.2,
        updateToNewQuality_changes_only_quality (fuelFor c.heap) c.heap c.ds.timeRoot ns 4 99
          hw hok.1 hok.2⟩

end AVLManagement
